import Mathlib

/-! # URL loader (`mojo/services/network/url_loader_impl.cc`)

A shallow embedding of `URLLoaderImpl`: the URL parser `ParseURL`, the
response-delivery operations `SendResponse` / `SendError`, and the redirect
loop of `StartInternal`, followed by theorems about them.

`std::string` is a list of characters; iterators into a string are indices
into that list (`url.end()` is `url.length`).
-/

namespace URLLoader

/-- A `std::string`. -/
abbrev Str := List Char

/-! ## ParseURL -/

/-- The separator `std::string delim("://")`. -/
def delim : Str := [':', '/', '/']

/-- The call `std::search(s.begin(), s.end(), d.begin(), d.end())`, as an index:
the position of the first occurrence of `d` in `s`, or `s.length`
(`s.end()`) when there is none. -/
def search (s d : Str) : Nat :=
  match s with
  | [] => 0
  | c :: t => if d.isPrefixOf (c :: t) then 0 else search t d + 1

/-- The call `std::find(first, last, ch)` on iterators of `url`, as an index:
the first position in `[first, last)` holding `ch`, or `last`. -/
def find (url : Str) (first last : Nat) (ch : Char) : Nat :=
  first + ((url.drop first).take (last - first)).findIdx (fun c => c == ch)

/-- The call `x.assign(first, last)` on iterators of `url`:
the characters in `[first, last)`. -/
def assign (url : Str) (first last : Nat) : Str :=
  (url.drop first).take (last - first)

/-- The four out-parameters of `ParseURL`. -/
structure ParsedURL where
  proto : Str
  host : Str
  port : Str
  path : Str
deriving DecidableEq

/-- `URLLoaderImpl::ParseURL`: `none` is `return false`, `some` carries the
out-parameters of `return true`. -/
def ParseURL (url : Str) : Option ParsedURL :=
  let proto_end := search url delim
  if proto_end = url.length then none
  else
    let proto := assign url 0 proto_end
    let host_start := proto_end + delim.length
    let path_start := find url host_start url.length '/'
    let host_end := find url host_start path_start ':'
    let host := assign url host_start host_end
    let port := if host_end ≠ path_start then assign url (host_end + 1) path_start else proto
    let path := if path_start ≠ url.length then assign url path_start url.length else ['/']
    if proto.length = 0 ∨ host.length = 0 ∨ port.length = 0 ∨ path.length = 0 then none
    else some ⟨proto, host, port, path⟩

/-! ## Loader state and response delivery -/

/-- Modelled from the spec: the error kinds of section 7. The header
`network_error.h` that gives the `int` constants is not part of this file, so
the codes are kept symbolic: the three constants the loader itself uses, and
`transport n` for any other code surfaced by the transport adapter. -/
inductive NetError
  | ERR_UNEXPECTED
  | ERR_INVALID_ARGUMENT
  | ERR_NOT_IMPLEMENTED
  | transport (n : Int)
deriving DecidableEq

/-- A `URLResponse`: its `error` member (`none` is the null pointer) and the
success payload the transport adapter fills in (`none` in a response made by
`URLResponse::New()`). -/
structure URLResponse where
  error : Option NetError
  payload : Option Nat
deriving DecidableEq

/-- A caller-supplied callback, identified by a number. -/
abbrev Handle := Nat

/-- One `std::unique_ptr<UploadElementReader>` of `element_readers`, wrapping
the body element it was built from. -/
structure UploadElementReader where
  element : Nat
deriving DecidableEq

/-- The arguments of `HTTPClient::CreateRequest`. -/
structure BuiltRequest where
  host : Str
  path : Str
  method : Str
  extra_headers : List (Str × Str)
  element_readers : List UploadElementReader
deriving DecidableEq

/-- The observable effects of the loader, in the order they happen. `secure`
tells the two instantiations of `HTTPClient` apart: `true` is
`HTTPClient<asio::ssl::stream<tcp::socket>>`, `false` is
`HTTPClient<tcp::socket>`. -/
inductive Event
  | run (callback : Handle) (response : URLResponse)
  | runStatus (callback : Handle) (error : NetError)
  | createRequest (secure : Bool) (req : BuiltRequest)
  | start (secure : Bool) (host port : Str)
deriving DecidableEq

/-- The members `callback_` (`none` is the null callback) and `responded_` of
`URLLoaderImpl`, together with the log of effects produced so far. -/
structure URLLoaderImpl where
  callback_ : Option Handle
  responded_ : Bool
  log : List Event
deriving DecidableEq

/-- The constructor: `responded_(false)` and a default-constructed `callback_`. -/
def URLLoaderImpl.new : URLLoaderImpl := ⟨none, false, []⟩

/-- Modelled from the spec: `Callback::Run` of the bindings library, which is
not part of this file. Running a callback invokes the caller's handle with the
response; a null (default-constructed) callback has no handle to invoke, so
nothing is delivered. -/
def Callback.Run (callback : Option Handle) (response : URLResponse)
    (log : List Event) : List Event :=
  match callback with
  | none => log
  | some h => log ++ [Event.run h response]

/-- `URLLoaderImpl::SendResponse`: swap `callback_` with a null callback, run
the swapped-out callback, set `responded_`. -/
def SendResponse (l : URLLoaderImpl) (response : URLResponse) : URLLoaderImpl :=
  let callback := l.callback_
  { callback_ := none
    responded_ := true
    log := Callback.Run callback response l.log }

/-- `URLLoaderImpl::SendError`: a fresh response whose `error` is
`MakeNetworkError(error_code)`, passed to `SendResponse`. -/
def SendError (l : URLLoaderImpl) (error_code : NetError) : URLLoaderImpl :=
  SendResponse l { error := some error_code, payload := none }

/-! ## The transport adapter -/

/-- A call the transport adapter makes on the loader it was constructed with
(`HTTPClient` receives `this`). -/
inductive LoaderCall
  | SendResponse (response : URLResponse)
  | SendError (error_code : NetError)
deriving DecidableEq

/-- What `c.Start(host, port); io_service.run();` leaves behind: the calls made
on the loader while running, and the members `status_code_` and
`redirect_location_` read afterwards. -/
structure ClientRun where
  calls : List LoaderCall
  status_code_ : Nat
  redirect_location_ : Str
deriving DecidableEq

/-- The behaviour of one constructed `HTTPClient` (`http_client.h` is not part
of this file, so it is a parameter): whether `CreateRequest` returns
`MOJO_RESULT_OK`, and the outcome of running the request it built on
`(host, port)`. -/
structure HTTPClient where
  CreateRequest : BuiltRequest → Bool
  Start : BuiltRequest → Str → Str → ClientRun

/-- The transport behaviour seen by one `StartInternal`: the client constructed
in the `i`-th iteration of the loop, over a TLS stream (`true`) or a plain
socket (`false`). -/
abbrev Transport := Nat → Bool → HTTPClient

/-- Perform one call of the adapter on the loader. -/
def applyCall (l : URLLoaderImpl) : LoaderCall → URLLoaderImpl
  | LoaderCall.SendResponse r => SendResponse l r
  | LoaderCall.SendError e => SendError l e

/-! ## The request -/

/-- One element of `request->headers`. -/
structure HttpHeader where
  name : Str
  value : Str
deriving DecidableEq

/-- A `URLRequest`; `none` is a null array. -/
structure URLRequest where
  url : Str
  method : Str
  headers : Option (List HttpHeader)
  body : Option (List Nat)
deriving DecidableEq

/-- The assignment `m[k] = v` on a `std::map<std::string, std::string>`, kept
as an association list with one entry per key. -/
def mapAssign (m : List (Str × Str)) (k v : Str) : List (Str × Str) :=
  match m with
  | [] => [(k, v)]
  | (k', v') :: t => if k' = k then (k, v) :: t else (k', v') :: mapAssign t k v

/-- The lookup `m.find(k)` on the association list. -/
def mapFind (m : List (Str × Str)) (k : Str) : Option Str :=
  match m with
  | [] => none
  | (k', v') :: t => if k' = k then some v' else mapFind t k

/-- The loop filling `extra_headers` (lines 115-118). -/
def collectHeaders (headers : Option (List HttpHeader)) : List (Str × Str) :=
  match headers with
  | none => []
  | some hs => hs.foldl (fun m h => mapAssign m h.name h.value) []

/-- The loop filling `element_readers` (lines 120-125). -/
def collectReaders (body : Option (List Nat)) : List UploadElementReader :=
  match body with
  | none => []
  | some es => es.map UploadElementReader.mk

/-! ## The redirect loop -/

/-- The string literals of `StartInternal`. -/
def sentinelHost : Str := "tq.mojoapps.io".toList
def rewrittenHost : Str := "tq-server".toList
def http : Str := "http".toList
def https : Str := "https".toList
def port80 : Str := "80".toList
def port443 : Str := "443".toList

/-- The host rewrite of lines 141-146, on the locals `proto, host, port, path`. -/
def rewriteHost (p : ParsedURL) : ParsedURL :=
  if p.host = sentinelHost then
    { proto := http, host := rewrittenHost, port := port80, path := p.path }
  else p

/-- The block under `#ifndef NETWORK_SERVICE_USE_HTTPS` (lines 154-161). -/
def forceHttp (p : ParsedURL) : ParsedURL :=
  if p.proto = https then
    { p with
      proto := http
      port := if p.port = port443 ∨ p.port = https ∨ p.port = [] then port80 else p.port }
  else p

/-- The locals of `StartInternal` that live across iterations. -/
structure Locals where
  url : Str
  redirect : Bool
  error_code : NetError
deriving DecidableEq

/-- The body shared by the two dispatch branches (lines 169-182 and 185-198):
build the request, and if that succeeds start the client, run it, and look at
its status. `io_service.run()` is taken to return: the transport adapter runs
one attempt to completion. The first component tells whether the loop was left
by `break`. -/
def attempt (c : HTTPClient) (secure : Bool) (p : ParsedURL) (method : Str)
    (extra_headers : List (Str × Str)) (element_readers : List UploadElementReader)
    (v : Locals) (l : URLLoaderImpl) : Bool × Locals × URLLoaderImpl :=
  let req : BuiltRequest := ⟨p.host, p.path, method, extra_headers, element_readers⟩
  let l := { l with log := l.log ++ [Event.createRequest secure req] }
  if c.CreateRequest req = false then
    (true, { v with error_code := NetError.ERR_INVALID_ARGUMENT }, l)
  else
    let l := { l with log := l.log ++ [Event.start secure p.host p.port] }
    let r := c.Start req p.host p.port
    let l := r.calls.foldl applyCall l
    if r.status_code_ = 301 ∨ r.status_code_ = 302 then
      (false, { v with redirect := true, url := r.redirect_location_ }, l)
    else (false, v, l)

/-- One iteration of the `do { ... } while (redirect)` body (lines 132-203), the
`i`-th of this `StartInternal`. `useHttps` is the build flag
`NETWORK_SERVICE_USE_HTTPS`. The `LOG` lines and `io_service.reset()` leave no
trace in the model. The first component tells whether the body was left by
`break`. -/
def hop (useHttps : Bool) (env : Transport) (method : Str)
    (extra_headers : List (Str × Str)) (element_readers : List UploadElementReader)
    (i : Nat) (v : Locals) (l : URLLoaderImpl) : Bool × Locals × URLLoaderImpl :=
  match ParseURL v.url with
  | none => (true, { v with error_code := NetError.ERR_INVALID_ARGUMENT }, l)
  | some p =>
    let p := rewriteHost p
    let v := if v.redirect then { v with redirect := false } else v
    let p := if useHttps then p else forceHttp p
    if p.proto = https then
      if useHttps then
        attempt (env i true) true p method extra_headers element_readers v l
      else (false, v, l)
    else if p.proto = http then
      attempt (env i false) false p method extra_headers element_readers v l
    else (true, { v with error_code := NetError.ERR_INVALID_ARGUMENT }, l)

/-- The `do { ... } while (redirect)` loop. The loop has no bound of its own;
`fuel` bounds the number of iterations the model follows, and `none` means the
loop is still running when the fuel is spent. -/
def loop (useHttps : Bool) (env : Transport) (method : Str)
    (extra_headers : List (Str × Str)) (element_readers : List UploadElementReader) :
    Nat → Nat → Locals → URLLoaderImpl → Option (Locals × URLLoaderImpl)
  | 0, _, _, _ => none
  | fuel + 1, i, v, l =>
    match hop useHttps env method extra_headers element_readers i v l with
    | (true, v', l') => some (v', l')
    | (false, v', l') =>
      if v'.redirect then
        loop useHttps env method extra_headers element_readers fuel (i + 1) v' l'
      else some (v', l')

/-- `URLLoaderImpl::StartInternal`. -/
def StartInternal (useHttps : Bool) (env : Transport) (l : URLLoaderImpl)
    (request : URLRequest) (fuel : Nat) : Option URLLoaderImpl :=
  let url := request.url
  let method := request.method
  let extra_headers := collectHeaders request.headers
  let element_readers := collectReaders request.body
  match loop useHttps env method extra_headers element_readers fuel 0
      { url := url, redirect := false, error_code := NetError.ERR_UNEXPECTED } l with
  | none => none
  | some (v, l) => some (if l.responded_ = false then SendError l v.error_code else l)

/-- `URLLoaderImpl::Start`. -/
def Start (useHttps : Bool) (env : Transport) (l : URLLoaderImpl)
    (request : URLRequest) (callback : Handle) (fuel : Nat) : Option URLLoaderImpl :=
  StartInternal useHttps env { l with callback_ := some callback } request fuel

/-- `URLLoaderImpl::FollowRedirect`. -/
def FollowRedirect (l : URLLoaderImpl) (callback : Handle) : URLLoaderImpl :=
  SendError { l with callback_ := some callback } NetError.ERR_NOT_IMPLEMENTED

/-- `URLLoaderImpl::QueryStatus`: the status callback is run directly, the
members of the loader are not touched. -/
def QueryStatus (l : URLLoaderImpl) (callback : Handle) : URLLoaderImpl :=
  { l with log := l.log ++ [Event.runStatus callback NetError.ERR_NOT_IMPLEMENTED] }

/-! ## Reading the log -/

/-- The responses delivered to callers, with the handle each went to. -/
def deliveries (log : List Event) : List (Handle × URLResponse) :=
  log.filterMap fun e =>
    match e with
    | Event.run h r => some (h, r)
    | _ => none

/-- The invocations of the transport adapter (`CreateRequest` and `Start`). -/
def adapterCalls (log : List Event) : List Event :=
  log.filter fun e =>
    match e with
    | Event.createRequest _ _ => true
    | Event.start _ _ _ => true
    | _ => false

/-- The error response built by `SendError`. -/
def errorResponse (error_code : NetError) : URLResponse :=
  { error := some error_code, payload := none }

/-- The response a call of the adapter hands to the loader. -/
def LoaderCall.response : LoaderCall → URLResponse
  | LoaderCall.SendResponse r => r
  | LoaderCall.SendError e => errorResponse e

/-! ## The URL parser in split form

The text before the first separator and the text after it decide the result of
`ParseURL`; `parseSplit` computes it from these two texts, following the words
of the parsing contract (authority up to the first `/`, host up to the first
`:` of the authority). -/

/-- The authority: the text after the separator up to the first `/` or the end. -/
def authorityOf (rest : Str) : Str := rest.takeWhile (fun c => c != '/')

/-- The host: the text after the separator up to the first `:` or `/` or the end. -/
def hostOf (rest : Str) : Str := rest.takeWhile (fun c => c != ':' && c != '/')

/-- The text between the first `:` of the authority and the first `/` (or the
end); empty when the authority has no `:`. -/
def portTextOf (rest : Str) : Str :=
  ((authorityOf rest).dropWhile (fun c => c != ':')).drop 1

/-- The text from the first `/` on; empty when there is no `/`. -/
def pathTextOf (rest : Str) : Str := rest.dropWhile (fun c => c != '/')

/-- The parsing contract on the text `pre` before the first separator and the
text `rest` after it. -/
def parseSplit (pre rest : Str) : Option ParsedURL :=
  let port := if ':' ∈ authorityOf rest then portTextOf rest else pre
  let path := if pathTextOf rest = [] then ['/'] else pathTextOf rest
  if pre = [] ∨ hostOf rest = [] ∨ port = [] then none
  else some ⟨pre, hostOf rest, port, path⟩

/-- `pre` is the text before the first separator of `url` and `rest` the text
after it: no decomposition of `url` around a separator starts earlier. -/
def FirstSplit (url pre rest : Str) : Prop :=
  url = pre ++ delim ++ rest ∧ ∀ a b, url = a ++ delim ++ b → pre.length ≤ a.length

/-- The failure condition of the parser as the contract words it. -/
def ParseFails (url : Str) : Prop :=
  (¬ delim <:+: url) ∨
  ∃ pre rest, FirstSplit url pre rest ∧
    (pre = [] ∨ hostOf rest = [] ∨ (':' ∈ authorityOf rest ∧ portTextOf rest = []))

/-- The `Start` invocations of the transport adapter: the instantiation, the
host and the port of each. -/
def startCalls (log : List Event) : List (Bool × Str × Str) :=
  log.filterMap fun e =>
    match e with
    | Event.start secure host port => some (secure, host, port)
    | _ => none

/-- The adapter invocations of one dispatched attempt: `CreateRequest` on `req`,
followed, when it returns `MOJO_RESULT_OK`, by `Start` on `req.host` and `port`. -/
def dispatchEvents (c : HTTPClient) (secure : Bool) (req : BuiltRequest) (port : Str) :
    List Event :=
  Event.createRequest secure req ::
    (if c.CreateRequest req = true then [Event.start secure req.host port] else [])

/-- The request the loader builds for `request` on a hop whose locals, after
the host rewrite and the protocol policy, are `t`. -/
def requestFor (request : URLRequest) (t : ParsedURL) : BuiltRequest :=
  ⟨t.host, t.path, request.method, collectHeaders request.headers,
    collectReaders request.body⟩

/-- The response `Start` ends up delivering when only the last attempt may
deliver: the first response the last attempt hands to the loader, or the
fallback error when it hands over none. -/
def finalResponse (last : ClientRun) : URLResponse :=
  match last.calls with
  | [] => errorResponse NetError.ERR_UNEXPECTED
  | c :: _ => c.response

/-- Since the loader state `l0` the loader has only appended to its log, and
the handle `cb` is either still stored and not yet run, or has been run exactly
once and cleared. -/
def DeliveredAtMostOnce (cb : Handle) (l0 l : URLLoaderImpl) : Prop :=
  ∃ new, l.log = l0.log ++ new ∧
    ((l.callback_ = some cb ∧ l.responded_ = false ∧ deliveries new = []) ∨
     (l.callback_ = none ∧ l.responded_ = true ∧ ∃ r, deliveries new = [(cb, r)]))

/-! ## Following the loop hop by hop -/

/-- Where the `do { ... } while (redirect)` loop stands: still iterating, left
by a `break`, or left by the `while (redirect)` test. -/
inductive LoopStatus
  | running
  | broke
  | finished
deriving DecidableEq

/-- The loop followed for at most `n` iterations from its `i`-th one: the same
iterations as `loop`, but when the `n` iterations are spent the state reached
so far is returned (with status `running`) together with how the loop was left
otherwise. -/
def loopAfter (useHttps : Bool) (env : Transport) (method : Str)
    (extra_headers : List (Str × Str)) (element_readers : List UploadElementReader) :
    Nat → Nat → Locals → URLLoaderImpl → LoopStatus × Locals × URLLoaderImpl
  | 0, _, v, l => (LoopStatus.running, v, l)
  | n + 1, i, v, l =>
    match hop useHttps env method extra_headers element_readers i v l with
    | (true, v', l') => (LoopStatus.broke, v', l')
    | (false, v', l') =>
      if v'.redirect then
        loopAfter useHttps env method extra_headers element_readers n (i + 1) v' l'
      else (LoopStatus.finished, v', l')

/-- The locals `proto, host, port, path` at the scheme dispatch (line 164) of a
hop whose URL parsed to `p`: after the host rewrite and, in a build without
`NETWORK_SERVICE_USE_HTTPS`, the forcing of https to http. -/
def dispatchTarget (useHttps : Bool) (p : ParsedURL) : ParsedURL :=
  if useHttps then rewriteHost p else forceHttp (rewriteHost p)

/-- The client the scheme dispatch constructs for the locals `t`: the TLS
client (`true`), the plaintext client (`false`), or none. -/
def clientOf (useHttps : Bool) (t : ParsedURL) : Option Bool :=
  if t.proto = https then (if useHttps then some true else none)
  else if t.proto = http then some false
  else none

/-- The URL of the hop fails to parse (the `break` of line 137). -/
def ParseFailure (v : Locals) : Prop := ParseURL v.url = none

/-- The URL of the hop parses, but the scheme at the dispatch is neither
`https` nor `http` (the `break` of line 202). -/
def UnsupportedScheme (useHttps : Bool) (v : Locals) : Prop :=
  ∃ p, ParseURL v.url = some p ∧ (dispatchTarget useHttps p).proto ≠ https ∧
    (dispatchTarget useHttps p).proto ≠ http

/-- The hop reaches a client, whose `CreateRequest` does not return
`MOJO_RESULT_OK` (the `break` of lines 174 and 190). -/
def BuildFailure (useHttps : Bool) (env : Transport) (method : Str)
    (extra_headers : List (Str × Str)) (element_readers : List UploadElementReader)
    (i : Nat) (v : Locals) : Prop :=
  ∃ p secure, ParseURL v.url = some p ∧
    clientOf useHttps (dispatchTarget useHttps p) = some secure ∧
    (env i secure).CreateRequest
      ⟨(dispatchTarget useHttps p).host, (dispatchTarget useHttps p).path, method,
        extra_headers, element_readers⟩ = false

/-- A property of the loader that the steps of an attempt keep: logging a
`CreateRequest` made with `method`, `extra_headers` and `element_readers`,
logging a `Start`, and a `SendResponse`. -/
def Stable (method : Str) (extra_headers : List (Str × Str))
    (element_readers : List UploadElementReader) (I : URLLoaderImpl → Prop) : Prop :=
  (∀ l secure host path, I l →
    I { l with log := l.log ++
      [Event.createRequest secure ⟨host, path, method, extra_headers, element_readers⟩] }) ∧
  (∀ l secure host port, I l →
    I { l with log := l.log ++ [Event.start secure host port] }) ∧
  (∀ l r, I l → I (SendResponse l r))

/-- Since the loader state `l0` the loader has only appended to its log, and the
handle `cb` is either still stored and not run, or has been run exactly once
and cleared. -/
def HandledAtMostOnce (cb : Handle) (l0 l : URLLoaderImpl) : Prop :=
  ∃ new, l.log = l0.log ++ new ∧
    ((l.callback_ = some cb ∧ deliveries new = []) ∨
     (l.callback_ = none ∧ ∃ r, deliveries new = [(cb, r)]))

/-- Since the loader state `l0` the loader has only appended to its log, and
every `CreateRequest` logged since carries the header mapping `hdrs`. -/
def HeadersPassed (hdrs : List (Str × Str)) (l0 l : URLLoaderImpl) : Prop :=
  ∃ new, l.log = l0.log ++ new ∧
    ∀ secure req, Event.createRequest secure req ∈ new → req.extra_headers = hdrs

/-- The value of the last header named `k` in the request's header list. -/
def lastValue (hs : List HttpHeader) (k : Str) : Option Str :=
  (hs.reverse.find? (fun h => decide (h.name = k))).map HttpHeader.value

/-! ## Sequences of calls on a loader -/

/-- A call on the loader: the two interface operations that take a response
handle, and the two delivery operations. -/
inductive Call
  | Start (env : Transport) (request : URLRequest) (callback : Handle) (fuel : Nat)
  | FollowRedirect (callback : Handle)
  | SendResponse (response : URLResponse)
  | SendError (error_code : NetError)

/-- Perform one call; `none` when a `Start` is still in its loop after `fuel`
iterations. -/
def perform (useHttps : Bool) (l : URLLoaderImpl) : Call → Option URLLoaderImpl
  | Call.Start env request callback fuel => Start useHttps env l request callback fuel
  | Call.FollowRedirect callback => some (FollowRedirect l callback)
  | Call.SendResponse response => some (SendResponse l response)
  | Call.SendError error_code => some (SendError l error_code)

/-- Perform a sequence of calls, each on the state the previous one left. -/
def performAll (useHttps : Bool) : URLLoaderImpl → List Call → Option URLLoaderImpl
  | l, [] => some l
  | l, c :: cs =>
    match perform useHttps l c with
    | none => none
    | some l' => performAll useHttps l' cs

/-- The response handle a call supplies, if any. -/
def Call.supplied : Call → List Handle
  | Call.Start _ _ callback _ => [callback]
  | Call.FollowRedirect callback => [callback]
  | Call.SendResponse _ => []
  | Call.SendError _ => []

/-- The response handles supplied by a sequence of calls, in order. -/
def suppliedHandles : List Call → List Handle
  | [] => []
  | c :: cs => c.supplied ++ suppliedHandles cs

/-- The handles that have been run, one entry per invocation. -/
def runHandles (log : List Event) : List Handle := (deliveries log).map Prod.fst

/-- The handle stored in the loader, if any. -/
def storedHandle (l : URLLoaderImpl) : List Handle := l.callback_.toList

/-! ## Redirect chains -/

/-- The `i`-th attempt of a `Start` on `request` is made for the URL `u`, which
parses to `p`; the scheme dispatch gives it the client `secure`, which builds
the request for the dispatch target of `p` and whose run on it is `r`. -/
def AnswersOn (useHttps : Bool) (env : Transport) (request : URLRequest) (i : Nat)
    (u : Str) (p : ParsedURL) (secure : Bool) (r : ClientRun) : Prop :=
  ParseURL u = some p ∧
    clientOf useHttps (dispatchTarget useHttps p) = some secure ∧
    (env i secure).CreateRequest (requestFor request (dispatchTarget useHttps p)) = true ∧
    (env i secure).Start (requestFor request (dispatchTarget useHttps p))
      (dispatchTarget useHttps p).host (dispatchTarget useHttps p).port = r

/-- A redirect chain starting at attempt `i` on the URL `u`: each attempt of
`chain` answers 301 or 302 without delivering a response itself, the next
attempt being made for the location it reports; the attempt after them, for a
URL parsing to `p` and on the client `secure`, answers `last` with a status
other than 301 and 302. -/
def RedirectChain (useHttps : Bool) (env : Transport) (request : URLRequest) :
    Nat → Str → List (ParsedURL × Bool × ClientRun) → ParsedURL → Bool → ClientRun → Prop
  | i, u, [], p, secure, last =>
    AnswersOn useHttps env request i u p secure last ∧
      last.status_code_ ≠ 301 ∧ last.status_code_ ≠ 302
  | i, u, (q, s, r) :: chain, p, secure, last =>
    AnswersOn useHttps env request i u q s r ∧
      (r.status_code_ = 301 ∨ r.status_code_ = 302) ∧ r.calls = [] ∧
      RedirectChain useHttps env request (i + 1) r.redirect_location_ chain p secure last

/-- The parsed URL and the client of every attempt of a chain, in order. -/
def hopsOf (chain : List (ParsedURL × Bool × ClientRun)) (p : ParsedURL) (secure : Bool) :
    List (ParsedURL × Bool) :=
  chain.map (fun x => (x.1, x.2.1)) ++ [(p, secure)]

/-- The adapter invocations of an attempt that is built and started for the
parsed URL `x.1` on the client `x.2`: both on the dispatch target. -/
def dispatchedAttempt (useHttps : Bool) (request : URLRequest) (x : ParsedURL × Bool) :
    List Event :=
  [Event.createRequest x.2 (requestFor request (dispatchTarget useHttps x.1)),
   Event.start x.2 (dispatchTarget useHttps x.1).host (dispatchTarget useHttps x.1).port]

/-- No client of the transport hands a response to the loader while running. -/
def Quiet (env : Transport) : Prop :=
  ∀ i secure req host port, ((env i secure).Start req host port).calls = []

/-- Every client of the transport builds its request and answers 301 or 302
with a location that parses to an http URL. -/
def AlwaysRedirects (env : Transport) : Prop :=
  ∀ i secure req host port,
    (env i secure).CreateRequest req = true ∧
    (((env i secure).Start req host port).status_code_ = 301 ∨
      ((env i secure).Start req host port).status_code_ = 302) ∧
    ∃ p, ParseURL ((env i secure).Start req host port).redirect_location_ = some p ∧
      p.proto = http

/-! ## Concrete transports and requests for the examples -/

/-- A transport whose every client builds its request and answers 200 without
delivering a response. -/
def okTransport : Transport :=
  fun _ _ => ⟨fun _ => true, fun _ _ _ => ⟨[], 200, []⟩⟩

/-- A transport whose first client answers 301 with the location `loc`, and
whose later clients answer 200 and deliver a response with payload `7`. -/
def redirectOnce (loc : Str) : Transport :=
  fun i _ =>
    ⟨fun _ => true, fun _ _ _ =>
      if i = 0 then ⟨[], 301, loc⟩
      else ⟨[LoaderCall.SendResponse ⟨none, some 7⟩], 200, []⟩⟩

/-- A `GET` request for `url` without headers and body. -/
def getRequest (url : String) : URLRequest :=
  ⟨url.toList, "GET".toList, none, none⟩

/-- A transport whose every client builds its request and answers 301 with the
location `loc`, delivering no response. -/
def alwaysRedirect (loc : Str) : Transport :=
  fun _ _ => ⟨fun _ => true, fun _ _ _ => ⟨[], 301, loc⟩⟩

/-- A transport whose every client builds its request, hands a response with
payload `7` to the loader, and answers 301 with the location `loc`. -/
def redirectAndDeliver (loc : Str) : Transport :=
  fun _ _ => ⟨fun _ => true, fun _ _ _ => ⟨[LoaderCall.SendResponse ⟨none, some 7⟩], 301, loc⟩⟩

/-- A transport whose every client fails to build its request. -/
def failingBuild : Transport :=
  fun _ _ => ⟨fun _ => false, fun _ _ _ => ⟨[], 200, []⟩⟩

/-- A `GET` request for `http://a.b/c` whose header list names `A` twice. -/
def dupHeaderRequest : URLRequest :=
  ⟨"http://a.b/c".toList, "GET".toList,
    some [⟨"A".toList, "1".toList⟩, ⟨"B".toList, "2".toList⟩, ⟨"A".toList, "3".toList⟩],
    none⟩

/-- A sequence of calls for the examples: a `Start` that succeeds, a
`FollowRedirect`, a stray `SendError`, and a `Start` on a malformed URL. -/
def exampleCalls : List Call :=
  [Call.Start okTransport (getRequest "http://a.b/c") 1 1,
   Call.FollowRedirect 2,
   Call.SendError NetError.ERR_UNEXPECTED,
   Call.Start okTransport (getRequest "noscheme") 3 1]

/-! ## Lemmas on the parser -/

theorem drop_split {url a d r : Str} (h : url = a ++ d ++ r) {n : Nat}
    (hn : n = a.length + d.length) : url.drop n = r := by
  subst h hn
  rw [← List.length_append]
  exact List.drop_left _ _

theorem search_le (s d : Str) : search s d ≤ s.length := by
  induction s with
  | nil => simp [search]
  | cons c t ih =>
    unfold search
    split
    · simp
    · simp; omega

theorem search_split (s d : Str) (h : search s d < s.length) :
    ∃ rest, s = s.take (search s d) ++ d ++ rest := by
  induction s with
  | nil => simp at h
  | cons c t ih =>
    unfold search
    by_cases hp : d.isPrefixOf (c :: t) = true
    · rw [if_pos hp]
      obtain ⟨r, hr⟩ := List.isPrefixOf_iff_prefix.mp hp
      exact ⟨r, by simp [hr]⟩
    · rw [if_neg hp]
      have h' : search t d < t.length := by
        unfold search at h
        rw [if_neg hp] at h
        simpa using h
      obtain ⟨r, hr⟩ := ih h'
      refine ⟨r, ?_⟩
      simp only [List.take_succ_cons, List.cons_append]
      rw [← hr]

theorem search_le_of_split (d a b : Str) : search (a ++ d ++ b) d ≤ a.length := by
  induction a with
  | nil =>
    cases hdb : ([] ++ d ++ b : Str) with
    | nil => simp [search]
    | cons c t =>
      unfold search
      have : d.isPrefixOf (c :: t) = true := by
        rw [← hdb]; exact List.isPrefixOf_iff_prefix.mpr ⟨b, by simp⟩
      simp [this]
  | cons c a ih =>
    simp only [List.cons_append]
    unfold search
    split
    · omega
    · simp only [List.length_cons]
      have := ih
      simp only [List.append_assoc] at this ⊢
      omega

theorem search_eq_of_firstSplit {url pre rest : Str} (h : FirstSplit url pre rest) :
    search url delim = pre.length := by
  obtain ⟨hu, hmin⟩ := h
  have h1 : search url delim ≤ pre.length := by
    rw [hu]; exact search_le_of_split delim pre rest
  have h2 : search url delim < url.length := by
    have : url.length = pre.length + 3 + rest.length := by
      rw [hu]; simp [delim]; omega
    omega
  obtain ⟨r, hr⟩ := search_split url delim h2
  have h3 := hmin _ _ hr
  rw [List.length_take] at h3
  omega

theorem firstSplit_of_search {url : Str} (h : search url delim ≠ url.length) :
    FirstSplit url (url.take (search url delim)) (url.drop (search url delim + 3)) := by
  have hlt : search url delim < url.length := lt_of_le_of_ne (search_le _ _) h
  obtain ⟨r, hr⟩ := search_split url delim hlt
  have hd : delim.length = 3 := rfl
  have hr2 : url.drop (search url delim + 3) = r :=
    drop_split hr (by rw [List.length_take, hd]; omega)
  refine ⟨?_, ?_⟩
  · rw [hr2]; exact hr
  · intro a b hab
    rw [List.length_take]
    have := search_le_of_split delim a b
    rw [← hab] at this
    omega

theorem not_bne_fun (x : Char) : (fun a : Char => !(a != x)) = (fun c => c == x) := by
  funext c
  simp [bne]

theorem authorityOf_eq_take (rest : Str) :
    authorityOf rest = rest.take (rest.findIdx (fun c => c == '/')) := by
  unfold authorityOf
  rw [List.takeWhile_eq_take_findIdx_not, not_bne_fun]

theorem pathTextOf_eq_drop (rest : Str) :
    pathTextOf rest = rest.drop (rest.findIdx (fun c => c == '/')) := by
  unfold pathTextOf
  rw [List.dropWhile_eq_drop_findIdx_not, not_bne_fun]

theorem authorityOf_length (rest : Str) :
    (authorityOf rest).length = rest.findIdx (fun c => c == '/') := by
  rw [authorityOf_eq_take, List.length_take]
  have := @List.findIdx_le_length _ (fun c => c == '/') (rest)
  omega

theorem hostOf_eq (rest : Str) :
    hostOf rest = (authorityOf rest).takeWhile (fun c => c != ':') := by
  unfold hostOf authorityOf
  induction rest with
  | nil => rfl
  | cons c t ih =>
    by_cases h1 : c = '/'
    · simp [h1]
    · by_cases h2 : c = ':'
      · simp [h2]
      · simp [h1, h2, ih]

theorem hostOf_eq_take (rest : Str) :
    hostOf rest = rest.take ((authorityOf rest).findIdx (fun c => c == ':')) := by
  rw [hostOf_eq, List.takeWhile_eq_take_findIdx_not, not_bne_fun]
  have hle := @List.findIdx_le_length _ (fun c => c == ':') (authorityOf rest)
  rw [authorityOf_length] at hle
  generalize (authorityOf rest).findIdx (fun c => c == ':') = b at hle ⊢
  rw [authorityOf_eq_take, List.take_take]
  congr 1
  omega

theorem mem_authority_iff (rest : Str) :
    ':' ∈ authorityOf rest ↔
      (authorityOf rest).findIdx (fun c => c == ':') ≠ rest.findIdx (fun c => c == '/') := by
  have hlen := authorityOf_length rest
  have hle := @List.findIdx_le_length _ (fun c => c == ':') (authorityOf rest)
  constructor
  · intro h
    have : (authorityOf rest).findIdx (fun c => c == ':') < (authorityOf rest).length :=
      List.findIdx_lt_length_of_exists ⟨':', h, by simp⟩
    omega
  · intro h
    have hlt : (authorityOf rest).findIdx (fun c => c == ':') < (authorityOf rest).length := by
      omega
    obtain ⟨x, hx, hp⟩ := List.findIdx_lt_length.mp hlt
    simp at hp
    exact hp ▸ hx

theorem portTextOf_eq (rest : Str) :
    portTextOf rest =
      (rest.drop ((authorityOf rest).findIdx (fun c => c == ':') + 1)).take
        (rest.findIdx (fun c => c == '/') -
          ((authorityOf rest).findIdx (fun c => c == ':') + 1)) := by
  unfold portTextOf
  rw [List.dropWhile_eq_drop_findIdx_not, not_bne_fun, List.drop_drop]
  generalize (authorityOf rest).findIdx (fun c => c == ':') = b
  rw [authorityOf_eq_take, List.drop_take]

theorem pathTextOf_eq_nil_iff (rest : Str) :
    pathTextOf rest = [] ↔ rest.findIdx (fun c => c == '/') = rest.length := by
  rw [pathTextOf_eq_drop, List.drop_eq_nil_iff]
  have := @List.findIdx_le_length _ (fun c => c == '/') (rest)
  omega

theorem ParseURL_eq_parseSplit {url pre rest : Str} (h : FirstSplit url pre rest) :
    ParseURL url = parseSplit pre rest := by
  have hs := search_eq_of_firstSplit h
  obtain ⟨hu, -⟩ := h
  have hd : delim.length = 3 := rfl
  have hlen : url.length = pre.length + 3 + rest.length := by
    rw [hu]; simp [hd]; omega
  have hdrop : url.drop (pre.length + 3) = rest := drop_split hu (by rw [hd])
  have htake : url.take pre.length = pre := by
    rw [hu, List.append_assoc]; exact List.take_left _ _
  have hpath : find url (pre.length + 3) url.length '/'
      = pre.length + 3 + rest.findIdx (fun c => c == '/') := by
    unfold find
    rw [hdrop, hlen, Nat.add_sub_cancel_left, List.take_length]
  have hhost : find url (pre.length + 3)
      (pre.length + 3 + rest.findIdx (fun c => c == '/')) ':'
      = pre.length + 3 + (authorityOf rest).findIdx (fun c => c == ':') := by
    unfold find
    rw [hdrop, Nat.add_sub_cancel_left, ← authorityOf_eq_take]
  have hproto : assign url 0 pre.length = pre := by
    unfold assign
    rw [List.drop_zero, Nat.sub_zero, htake]
  have hhostv : assign url (pre.length + 3)
      (pre.length + 3 + (authorityOf rest).findIdx (fun c => c == ':')) = hostOf rest := by
    unfold assign
    rw [hdrop, Nat.add_sub_cancel_left, ← hostOf_eq_take]
  have hportv : assign url (pre.length + 3 + (authorityOf rest).findIdx (fun c => c == ':') + 1)
      (pre.length + 3 + rest.findIdx (fun c => c == '/')) = portTextOf rest := by
    unfold assign
    rw [portTextOf_eq, Nat.add_assoc (pre.length + 3), ← List.drop_drop, hdrop]
    congr 1
    omega
  have hpathv : assign url (pre.length + 3 + rest.findIdx (fun c => c == '/')) url.length
      = pathTextOf rest := by
    unfold assign
    rw [pathTextOf_eq_drop, ← List.drop_drop, hdrop]
    apply List.take_of_length_le
    rw [List.length_drop]
    omega
  have hne : pre.length ≠ url.length := by omega
  have hpathne : pathTextOf rest ≠ [] → (pathTextOf rest).length ≠ 0 := by
    intro h1 h2
    exact h1 (List.length_eq_zero.mp h2)
  unfold ParseURL parseSplit
  simp only [hs, hd, hpath, hhost, hproto, hhostv, hportv, hpathv, if_neg hne]
  by_cases hauth : ':' ∈ authorityOf rest
  · have hb := (mem_authority_iff rest).mp hauth
    have hb' : pre.length + 3 + (authorityOf rest).findIdx (fun c => c == ':') ≠
        pre.length + 3 + rest.findIdx (fun c => c == '/') := by omega
    rw [if_pos hb', if_pos hauth]
    by_cases hp : pathTextOf rest = []
    · have ha := (pathTextOf_eq_nil_iff rest).mp hp
      have ha' : ¬ pre.length + 3 + rest.findIdx (fun c => c == '/') ≠ url.length := by omega
      simp [if_neg ha', if_pos hp, List.length_eq_zero]
    · have ha := mt (pathTextOf_eq_nil_iff rest).mpr hp
      have ha' : pre.length + 3 + rest.findIdx (fun c => c == '/') ≠ url.length := by omega
      simp [if_pos ha', if_neg hp, List.length_eq_zero, hp]
  · have hb := mt (mem_authority_iff rest).mpr hauth
    have hb' : ¬ pre.length + 3 + (authorityOf rest).findIdx (fun c => c == ':') ≠
        pre.length + 3 + rest.findIdx (fun c => c == '/') := by omega
    rw [if_neg hb', if_neg hauth]
    by_cases hp : pathTextOf rest = []
    · have ha := (pathTextOf_eq_nil_iff rest).mp hp
      have ha' : ¬ pre.length + 3 + rest.findIdx (fun c => c == '/') ≠ url.length := by omega
      simp [if_neg ha', if_pos hp, List.length_eq_zero]
    · have ha := mt (pathTextOf_eq_nil_iff rest).mpr hp
      have ha' : pre.length + 3 + rest.findIdx (fun c => c == '/') ≠ url.length := by omega
      simp [if_pos ha', if_neg hp, List.length_eq_zero, hp]

theorem search_of_no_colon (s rest : Str) (hs : ':' ∉ s) :
    search (s ++ delim ++ rest) delim = s.length := by
  induction s with
  | nil => simp [search, delim]
  | cons c t ih =>
    have hc : c ≠ ':' := fun h => hs (by simp [h])
    have ht : ':' ∉ t := fun h => hs (by simp [h])
    have hpre : delim.isPrefixOf (c :: (t ++ delim ++ rest)) = false := by
      simp [delim, List.isPrefixOf, Ne.symm hc]
    show search (c :: (t ++ delim ++ rest)) delim = _
    rw [search, if_neg (by rw [hpre]; exact Bool.false_ne_true), ih ht]
    rfl

theorem firstSplit_of_no_colon (s rest : Str) (hs : ':' ∉ s) :
    FirstSplit (s ++ delim ++ rest) s rest := by
  refine ⟨rfl, ?_⟩
  intro a b hab
  have h1 := search_le_of_split delim a b
  rw [← hab, search_of_no_colon s rest hs] at h1
  exact h1

theorem authorityOf_append (X B : Str) (hX : '/' ∉ X)
    (hB : B = [] ∨ B.head? = some '/') : authorityOf (X ++ B) = X := by
  have h1 : ∀ a ∈ X, (fun c : Char => c != '/') a = true := by
    intro a ha
    simpa using fun e : a = '/' => hX (e ▸ ha)
  unfold authorityOf
  rw [List.takeWhile_append_of_pos h1]
  cases B with
  | nil => simp
  | cons c t =>
    have hc : c = '/' := by simpa using hB
    simp [hc]

theorem pathTextOf_append (X B : Str) (hX : '/' ∉ X)
    (hB : B = [] ∨ B.head? = some '/') : pathTextOf (X ++ B) = B := by
  have h1 : ∀ a ∈ X, (fun c : Char => c != '/') a = true := by
    intro a ha
    simpa using fun e : a = '/' => hX (e ▸ ha)
  unfold pathTextOf
  rw [List.dropWhile_append_of_pos h1]
  cases B with
  | nil => simp
  | cons c t =>
    have hc : c = '/' := by simpa using hB
    simp [hc]

theorem hostOf_append (h R : Str) (hhc : ':' ∉ h) (hhs : '/' ∉ h)
    (hR : R = [] ∨ R.head? = some ':' ∨ R.head? = some '/') : hostOf (h ++ R) = h := by
  have h2 : ∀ a ∈ h, (fun c : Char => c != ':' && c != '/') a = true := by
    intro a ha
    have e1 : a ≠ ':' := fun e => hhc (e ▸ ha)
    have e2 : a ≠ '/' := fun e => hhs (e ▸ ha)
    simp [e1, e2]
  unfold hostOf
  rw [List.takeWhile_append_of_pos h2]
  cases R with
  | nil => simp
  | cons c t =>
    have hc : c = ':' ∨ c = '/' := by simpa using hR
    rcases hc with hc | hc <;> simp [hc]

theorem dropWhile_colon_append (h R : Str) (hhc : ':' ∉ h)
    (hR : R = [] ∨ R.head? = some ':') :
    (h ++ R).dropWhile (fun c => c != ':') = R := by
  have h3 : ∀ a ∈ h, (fun c : Char => c != ':') a = true := by
    intro a ha
    simpa using fun e : a = ':' => hhc (e ▸ ha)
  rw [List.dropWhile_append_of_pos h3]
  cases R with
  | nil => simp
  | cons c t =>
    have hc : c = ':' := by simpa using hR
    simp [hc]

/-- The split form on an authority `h:p` followed by `B` (empty or a path). -/
theorem parseSplit_with_port (s h p B : Str)
    (hs : s ≠ []) (hh : h ≠ []) (hhc : ':' ∉ h) (hhs : '/' ∉ h)
    (hp : p ≠ []) (hps : '/' ∉ p) (hB : B = [] ∨ B.head? = some '/') :
    parseSplit s (h ++ [':'] ++ p ++ B)
      = some ⟨s, h, p, if B = [] then ['/'] else B⟩ := by
  have hX : '/' ∉ h ++ [':'] ++ p := by
    simp only [List.mem_append, List.mem_singleton, not_or]
    exact ⟨⟨hhs, by decide⟩, hps⟩
  have hauth := authorityOf_append (h ++ [':'] ++ p) B hX hB
  have hpath := pathTextOf_append (h ++ [':'] ++ p) B hX hB
  have hhost : hostOf (h ++ [':'] ++ p ++ B) = h := by
    rw [List.append_assoc, List.append_assoc]
    exact hostOf_append h _ hhc hhs (Or.inr (Or.inl rfl))
  have hport : portTextOf (h ++ [':'] ++ p ++ B) = p := by
    unfold portTextOf
    rw [hauth, List.append_assoc,
      dropWhile_colon_append h ([':'] ++ p) hhc (Or.inr rfl)]
    rfl
  have hmem : ':' ∈ h ++ [':'] ++ p := by simp
  unfold parseSplit
  simp only [hauth, hhost, hport, hpath, if_pos hmem]
  simp [hs, hh, hp]

/-- The split form on an authority `h` without `:` followed by `B` (empty or a
path). -/
theorem parseSplit_without_port (s h B : Str)
    (hs : s ≠ []) (hh : h ≠ []) (hhc : ':' ∉ h) (hhs : '/' ∉ h)
    (hB : B = [] ∨ B.head? = some '/') :
    parseSplit s (h ++ B) = some ⟨s, h, s, if B = [] then ['/'] else B⟩ := by
  have hauth := authorityOf_append h B hhs hB
  have hpath := pathTextOf_append h B hhs hB
  have hhost : hostOf (h ++ B) = h :=
    hostOf_append h B hhc hhs (hB.imp id Or.inr)
  unfold parseSplit
  simp only [hauth, hhost, hpath, if_neg hhc]
  simp [hs, hh]

theorem not_infix_of_search {url : Str} (h : search url delim = url.length) :
    ¬ delim <:+: url := by
  rintro ⟨a, b, hab⟩
  have h1 := search_le_of_split delim a b
  rw [hab, h] at h1
  have : url.length = a.length + 3 + b.length := by
    rw [← hab]; simp [delim]; omega
  omega

theorem infix_of_search {url : Str} (h : search url delim ≠ url.length) :
    delim <:+: url := by
  obtain ⟨hu, -⟩ := firstSplit_of_search h
  exact ⟨_, _, hu.symm⟩

theorem parseSplit_eq_none_iff (pre rest : Str) :
    parseSplit pre rest = none ↔
      (pre = [] ∨ hostOf rest = [] ∨ (':' ∈ authorityOf rest ∧ portTextOf rest = [])) := by
  unfold parseSplit
  by_cases hm : ':' ∈ authorityOf rest
  · simp only [hm, if_true, true_and]
    constructor
    · intro h
      by_contra hc
      rw [if_neg hc] at h
      exact Option.noConfusion h
    · intro h
      rw [if_pos h]
  · simp only [if_neg hm, hm, false_and, or_false]
    constructor
    · intro h
      by_contra hc
      rw [if_neg (by tauto)] at h
      exact Option.noConfusion h
    · intro h
      rw [if_pos (by tauto)]

/-! ## Claims on the parser -/

/-- C1: for a non-empty scheme `s` without `:`, a non-empty host `h` without
`:` and `/`, a non-empty port `p` without `/` and a path `q` beginning with `/`,
`ParseURL` on `s://h:pq` succeeds with exactly `(s, h, p, q)`, the path being
kept verbatim. -/
theorem C1_ParseURL_exact_components (s h p q : Str)
    (hs : s ≠ []) (hsc : ':' ∉ s) (hh : h ≠ []) (hhc : ':' ∉ h) (hhs : '/' ∉ h)
    (hp : p ≠ []) (hps : '/' ∉ p) (hq : q.head? = some '/') :
    ParseURL (s ++ "://".toList ++ h ++ ":".toList ++ p ++ q) = some ⟨s, h, p, q⟩ := by
  have hq' : q ≠ [] := by
    rintro rfl
    simp at hq
  have hsplit := firstSplit_of_no_colon s (h ++ [':'] ++ p ++ q) hsc
  have hparse := ParseURL_eq_parseSplit hsplit
  rw [parseSplit_with_port s h p q hs hh hhc hhs hp hps (Or.inr hq), if_neg hq'] at hparse
  rw [← hparse]
  congr 1
  simp [delim]

/-- C1, at the URL of the contract: `http://example.com:8080/a/b` parses to
`("http", "example.com", "8080", "/a/b")`. -/
theorem C1_ParseURL_exact_components_witness :
    ParseURL "http://example.com:8080/a/b".toList
      = some ⟨"http".toList, "example.com".toList, "8080".toList, "/a/b".toList⟩ :=
  C1_ParseURL_exact_components "http".toList "example.com".toList "8080".toList
    "/a/b".toList (by decide) (by decide) (by decide) (by decide) (by decide)
    (by decide) (by decide) (by decide)

/-- C2: when the authority has no `:`, the port is the scheme string itself:
`ParseURL` on `s://hq` succeeds with `(s, h, s, q)`. -/
theorem C2_ParseURL_port_defaults_to_scheme (s h q : Str)
    (hs : s ≠ []) (hsc : ':' ∉ s) (hh : h ≠ []) (hhc : ':' ∉ h) (hhs : '/' ∉ h)
    (hq : q.head? = some '/') :
    ParseURL (s ++ "://".toList ++ h ++ q) = some ⟨s, h, s, q⟩ := by
  have hq' : q ≠ [] := by
    rintro rfl
    simp at hq
  have hsplit := firstSplit_of_no_colon s (h ++ q) hsc
  have hparse := ParseURL_eq_parseSplit hsplit
  rw [parseSplit_without_port s h q hs hh hhc hhs (Or.inr hq), if_neg hq'] at hparse
  rw [← hparse]
  congr 1
  simp [delim]

/-- C2, at the URL of the contract: `http://example.com/` parses to
`("http", "example.com", "http", "/")`. -/
theorem C2_ParseURL_port_defaults_to_scheme_witness :
    ParseURL "http://example.com/".toList
      = some ⟨"http".toList, "example.com".toList, "http".toList, "/".toList⟩ :=
  C2_ParseURL_port_defaults_to_scheme "http".toList "example.com".toList "/".toList
    (by decide) (by decide) (by decide) (by decide) (by decide) (by decide)

/-- C3: when no `/` follows the first separator the path is `"/"`:
`ParseURL` on `s://h:p` gives `(s, h, p, "/")` and on `s://h` gives
`(s, h, s, "/")`. -/
theorem C3_ParseURL_path_defaults_to_slash (s h p : Str)
    (hs : s ≠ []) (hsc : ':' ∉ s) (hh : h ≠ []) (hhc : ':' ∉ h) (hhs : '/' ∉ h)
    (hp : p ≠ []) (hps : '/' ∉ p) :
    ParseURL (s ++ "://".toList ++ h ++ ":".toList ++ p) = some ⟨s, h, p, "/".toList⟩ ∧
    ParseURL (s ++ "://".toList ++ h) = some ⟨s, h, s, "/".toList⟩ := by
  show ParseURL (s ++ "://".toList ++ h ++ ":".toList ++ p) = some ⟨s, h, p, ['/']⟩ ∧
    ParseURL (s ++ "://".toList ++ h) = some ⟨s, h, s, ['/']⟩
  constructor
  · have hsplit := firstSplit_of_no_colon s (h ++ [':'] ++ p ++ []) hsc
    have hparse := ParseURL_eq_parseSplit hsplit
    rw [parseSplit_with_port s h p [] hs hh hhc hhs hp hps (Or.inl rfl), if_pos rfl] at hparse
    rw [← hparse]
    congr 1
    simp [delim]
  · have hsplit := firstSplit_of_no_colon s (h ++ []) hsc
    have hparse := ParseURL_eq_parseSplit hsplit
    rw [parseSplit_without_port s h [] hs hh hhc hhs (Or.inl rfl), if_pos rfl] at hparse
    rw [← hparse]
    congr 1
    simp [delim]

/-- C3, at concrete URLs: `http://example.com:8080` parses to
`("http", "example.com", "8080", "/")` and `http://example.com` to
`("http", "example.com", "http", "/")`. -/
theorem C3_ParseURL_path_defaults_to_slash_witness :
    ParseURL "http://example.com:8080".toList
      = some ⟨"http".toList, "example.com".toList, "8080".toList, "/".toList⟩ ∧
    ParseURL "http://example.com".toList
      = some ⟨"http".toList, "example.com".toList, "http".toList, "/".toList⟩ :=
  C3_ParseURL_path_defaults_to_slash "http".toList "example.com".toList "8080".toList
    (by decide) (by decide) (by decide) (by decide) (by decide) (by decide) (by decide)

/-- C4: `ParseURL` fails exactly when the URL has no `://`, or the text before
the first `://` is empty, or the host is empty, or the authority has a `:` with
nothing between it and the first `/` (or the end); `noscheme` and `http://`
both fail. -/
theorem C4_ParseURL_fails_iff (url : Str) :
    (ParseURL url = none ↔ ParseFails url) ∧
    ParseURL "noscheme".toList = none ∧ ParseURL "http://".toList = none := by
  refine ⟨?_, by decide, by decide⟩
  unfold ParseFails
  by_cases hsearch : search url delim = url.length
  · have hnone : ParseURL url = none := by
      unfold ParseURL
      simp [hsearch]
    have hinfix := not_infix_of_search hsearch
    exact ⟨fun _ => Or.inl hinfix, fun _ => hnone⟩
  · have hsplit := firstSplit_of_search hsearch
    have hparse := ParseURL_eq_parseSplit hsplit
    have hinfix := infix_of_search hsearch
    constructor
    · intro hnone
      rw [hparse, parseSplit_eq_none_iff] at hnone
      exact Or.inr ⟨_, _, hsplit, hnone⟩
    · rintro (hno | ⟨pre, rest, hfs, hcond⟩)
      · exact absurd hinfix hno
      · rw [ParseURL_eq_parseSplit hfs, parseSplit_eq_none_iff]
        exact hcond

/-! ## Lemmas on response delivery -/

theorem deliveries_append (a b : List Event) :
    deliveries (a ++ b) = deliveries a ++ deliveries b := by
  simp [deliveries]

theorem adapterCalls_append (a b : List Event) :
    adapterCalls (a ++ b) = adapterCalls a ++ adapterCalls b := by
  simp [adapterCalls]

theorem startCalls_append (a b : List Event) :
    startCalls (a ++ b) = startCalls a ++ startCalls b := by
  simp [startCalls]

theorem applyCall_eq (l : URLLoaderImpl) (c : LoaderCall) :
    applyCall l c = SendResponse l c.response := by
  cases c <;> rfl

theorem SendResponse_twice (l : URLLoaderImpl) (r r' : URLResponse) :
    SendResponse (SendResponse l r) r' = SendResponse l r := by
  simp [SendResponse, Callback.Run]

theorem foldl_applyCall_cons (l : URLLoaderImpl) (c : LoaderCall) (cs : List LoaderCall) :
    (c :: cs).foldl applyCall l = SendResponse l c.response := by
  induction cs generalizing l c with
  | nil => simp [applyCall_eq]
  | cons d ds ih =>
    rw [List.foldl_cons, ih, applyCall_eq, SendResponse_twice]

theorem adapterCalls_SendResponse (l : URLLoaderImpl) (r : URLResponse) :
    adapterCalls (SendResponse l r).log = adapterCalls l.log := by
  cases h : l.callback_ <;> simp [SendResponse, Callback.Run, h, adapterCalls]

theorem adapterCalls_foldl_applyCall (l : URLLoaderImpl) (cs : List LoaderCall) :
    adapterCalls (cs.foldl applyCall l).log = adapterCalls l.log := by
  cases cs with
  | nil => rfl
  | cons c cs => rw [foldl_applyCall_cons, adapterCalls_SendResponse]

theorem deliveredAtMostOnce_refl (cb : Handle) (l0 l : URLLoaderImpl) (hlog : l.log = l0.log)
    (hcb : l.callback_ = some cb) (hr : l.responded_ = false) :
    DeliveredAtMostOnce cb l0 l :=
  ⟨[], by simp [hlog], Or.inl ⟨hcb, hr, rfl⟩⟩

theorem deliveredAtMostOnce_log {cb : Handle} {l0 l : URLLoaderImpl}
    (h : DeliveredAtMostOnce cb l0 l) (es : List Event) (hes : deliveries es = []) :
    DeliveredAtMostOnce cb l0 { l with log := l.log ++ es } := by
  obtain ⟨new, hnew, hcase⟩ := h
  refine ⟨new ++ es, by simp [hnew], ?_⟩
  simpa [deliveries_append, hes] using hcase

theorem deliveredAtMostOnce_send {cb : Handle} {l0 l : URLLoaderImpl}
    (h : DeliveredAtMostOnce cb l0 l) (r : URLResponse) :
    DeliveredAtMostOnce cb l0 (SendResponse l r) := by
  obtain ⟨new, hnew, hcase⟩ := h
  rcases hcase with ⟨hcb, -, hd⟩ | ⟨hcb, -, r0, hd⟩
  · refine ⟨new ++ [Event.run cb r], ?_, Or.inr ⟨rfl, rfl, r, ?_⟩⟩
    · simp [SendResponse, Callback.Run, hcb, hnew]
    · rw [deliveries_append, hd]; rfl
  · refine ⟨new, ?_, Or.inr ⟨rfl, rfl, r0, hd⟩⟩
    simp [SendResponse, Callback.Run, hcb, hnew]

theorem deliveredAtMostOnce_calls {cb : Handle} {l0 l : URLLoaderImpl}
    (h : DeliveredAtMostOnce cb l0 l) (cs : List LoaderCall) :
    DeliveredAtMostOnce cb l0 (cs.foldl applyCall l) := by
  cases cs with
  | nil => exact h
  | cons c cs =>
    rw [foldl_applyCall_cons]
    exact deliveredAtMostOnce_send h _

theorem deliveredAtMostOnce_attempt {cb : Handle} {l0 l : URLLoaderImpl}
    (h : DeliveredAtMostOnce cb l0 l) (c : HTTPClient) (secure : Bool) (p : ParsedURL)
    (method : Str) (hdrs : List (Str × Str)) (rdrs : List UploadElementReader) (v : Locals) :
    DeliveredAtMostOnce cb l0 (attempt c secure p method hdrs rdrs v l).2.2 := by
  unfold attempt
  simp only
  split
  · exact deliveredAtMostOnce_log h _ rfl
  · have h2 := deliveredAtMostOnce_log (deliveredAtMostOnce_log h
      [Event.createRequest secure ⟨p.host, p.path, method, hdrs, rdrs⟩] rfl)
      [Event.start secure p.host p.port] rfl
    split <;> exact deliveredAtMostOnce_calls h2 _

theorem deliveredAtMostOnce_hop {cb : Handle} {l0 l : URLLoaderImpl}
    (h : DeliveredAtMostOnce cb l0 l) (useHttps : Bool) (env : Transport)
    (method : Str) (hdrs : List (Str × Str)) (rdrs : List UploadElementReader)
    (i : Nat) (v : Locals) :
    DeliveredAtMostOnce cb l0 (hop useHttps env method hdrs rdrs i v l).2.2 := by
  unfold hop
  split
  · exact h
  · simp only
    repeat' split
    all_goals first
      | exact h
      | exact deliveredAtMostOnce_attempt h _ _ _ _ _ _ _

theorem deliveredAtMostOnce_loop {cb : Handle} {l0 : URLLoaderImpl}
    (useHttps : Bool) (env : Transport)
    (method : Str) (hdrs : List (Str × Str)) (rdrs : List UploadElementReader)
    (fuel : Nat) : ∀ (i : Nat) (v : Locals) (l : URLLoaderImpl) (v' : Locals)
      (l' : URLLoaderImpl), DeliveredAtMostOnce cb l0 l →
      loop useHttps env method hdrs rdrs fuel i v l = some (v', l') →
      DeliveredAtMostOnce cb l0 l' := by
  induction fuel with
  | zero =>
    intro i v l v' l' _ hrun
    simp [loop] at hrun
  | succ n ih =>
    intro i v l v' l' h hrun
    have hhop := deliveredAtMostOnce_hop h useHttps env method hdrs rdrs i v
    rw [loop] at hrun
    rcases hres : hop useHttps env method hdrs rdrs i v l with ⟨brk, v1, l1⟩
    rw [hres] at hrun hhop
    cases brk with
    | true =>
      simp only [Option.some.injEq, Prod.mk.injEq] at hrun
      exact hrun.2 ▸ hhop
    | false =>
      simp only at hrun
      split at hrun
      · exact ih _ _ _ _ _ hhop hrun
      · simp only [Option.some.injEq, Prod.mk.injEq] at hrun
        exact hrun.2 ▸ hhop

/-! ## Lemmas on one iteration of the loop -/

theorem reset_redirect (v : Locals) :
    (if v.redirect = true then { v with redirect := false } else v)
      = { v with redirect := false } := by
  cases v with
  | mk url redirect error_code =>
    cases redirect <;> rfl

theorem hop_of_parse_none (useHttps : Bool) (env : Transport) (method : Str)
    (hdrs : List (Str × Str)) (rdrs : List UploadElementReader) (i : Nat) (v : Locals)
    (l : URLLoaderImpl) (h : ParseURL v.url = none) :
    hop useHttps env method hdrs rdrs i v l
      = (true, { v with error_code := NetError.ERR_INVALID_ARGUMENT }, l) := by
  unfold hop
  rw [h]

/-- The locals `proto, host, port, path` at the dispatch of a hop whose URL
parsed to `p`. -/
theorem hop_of_parse_some (useHttps : Bool) (env : Transport) (method : Str)
    (hdrs : List (Str × Str)) (rdrs : List UploadElementReader) (i : Nat) (v : Locals)
    (l : URLLoaderImpl) (p t : ParsedURL) (h : ParseURL v.url = some p)
    (ht : t = if useHttps = true then rewriteHost p else forceHttp (rewriteHost p)) :
    hop useHttps env method hdrs rdrs i v l =
      if t.proto = https then
        if useHttps = true then
          attempt (env i true) true t method hdrs rdrs { v with redirect := false } l
        else (false, { v with redirect := false }, l)
      else if t.proto = http then
        attempt (env i false) false t method hdrs rdrs { v with redirect := false } l
      else (true, { url := v.url, redirect := false,
                    error_code := NetError.ERR_INVALID_ARGUMENT }, l) := by
  unfold hop
  rw [h]
  simp only [reset_redirect, ← ht]

theorem http_ne_https : http ≠ https := by decide

theorem rewriteHost_of_sentinel (p : ParsedURL) (h : p.host = sentinelHost) :
    rewriteHost p = ⟨http, rewrittenHost, port80, p.path⟩ := by
  unfold rewriteHost
  rw [if_pos h]

theorem rewriteHost_of_other (p : ParsedURL) (h : p.host ≠ sentinelHost) :
    rewriteHost p = p := by
  unfold rewriteHost
  rw [if_neg h]

theorem forceHttp_of_not_https (p : ParsedURL) (h : p.proto ≠ https) : forceHttp p = p := by
  unfold forceHttp
  rw [if_neg h]

theorem forceHttp_of_https (p : ParsedURL) (h : p.proto = https) :
    forceHttp p = ⟨http, p.host,
      if p.port = port443 ∨ p.port = https ∨ p.port = [] then port80 else p.port, p.path⟩ := by
  unfold forceHttp
  rw [if_pos h]

theorem attempt_adapterCalls (c : HTTPClient) (secure : Bool) (t : ParsedURL) (method : Str)
    (hdrs : List (Str × Str)) (rdrs : List UploadElementReader) (v : Locals)
    (l : URLLoaderImpl) :
    adapterCalls (attempt c secure t method hdrs rdrs v l).2.2.log
      = adapterCalls l.log
        ++ dispatchEvents c secure ⟨t.host, t.path, method, hdrs, rdrs⟩ t.port := by
  unfold attempt dispatchEvents
  simp only
  by_cases hok : c.CreateRequest ⟨t.host, t.path, method, hdrs, rdrs⟩ = true
  · have hne : ¬ c.CreateRequest ⟨t.host, t.path, method, hdrs, rdrs⟩ = false := by
      rw [hok]; exact Bool.noConfusion
    rw [if_neg hne, if_pos hok]
    split <;>
    · rw [adapterCalls_foldl_applyCall]
      simp [adapterCalls]
  · have hf : c.CreateRequest ⟨t.host, t.path, method, hdrs, rdrs⟩ = false := by
      simpa using hok
    rw [if_pos hf, if_neg hok]
    simp [adapterCalls]

theorem attempt_of_ok (c : HTTPClient) (secure : Bool) (t : ParsedURL) (method : Str)
    (hdrs : List (Str × Str)) (rdrs : List UploadElementReader) (v : Locals)
    (l : URLLoaderImpl) (r : ClientRun)
    (hok : c.CreateRequest ⟨t.host, t.path, method, hdrs, rdrs⟩ = true)
    (hrun : c.Start ⟨t.host, t.path, method, hdrs, rdrs⟩ t.host t.port = r) :
    attempt c secure t method hdrs rdrs v l =
      (false,
        if r.status_code_ = 301 ∨ r.status_code_ = 302 then
          { v with redirect := true, url := r.redirect_location_ }
        else v,
        r.calls.foldl applyCall
          { l with log := l.log ++ [Event.createRequest secure ⟨t.host, t.path, method, hdrs, rdrs⟩,
                                   Event.start secure t.host t.port] }) := by
  unfold attempt
  simp only
  have hne : ¬ c.CreateRequest ⟨t.host, t.path, method, hdrs, rdrs⟩ = false := by
    rw [hok]; exact Bool.noConfusion
  rw [if_neg hne, hrun]
  split <;> simp

/-! ## Claims on the loader -/

/-- C5: whenever the redirect loop terminates, `Start` on an idle loader
(`responded_` false) delivers exactly one response, to the supplied handle, and
`responded_` is true afterwards. -/
theorem C5_Start_delivers_exactly_once (useHttps : Bool) (env : Transport)
    (l : URLLoaderImpl) (request : URLRequest) (callback : Handle) (fuel : Nat)
    (l' : URLLoaderImpl) (hidle : l.responded_ = false)
    (hterm : Start useHttps env l request callback fuel = some l') :
    (∃ new r, l'.log = l.log ++ new ∧ deliveries new = [(callback, r)]) ∧
      l'.responded_ = true := by
  unfold Start StartInternal at hterm
  simp only at hterm
  split at hterm
  · exact Option.noConfusion hterm
  · rename_i v l1 hloop
    have hinit : DeliveredAtMostOnce callback l { l with callback_ := some callback } :=
      deliveredAtMostOnce_refl callback l _ rfl rfl hidle
    have hinv := deliveredAtMostOnce_loop useHttps env _ _ _ fuel 0 _ _ v l1 hinit hloop
    simp only [Option.some.injEq] at hterm
    subst hterm
    by_cases hresp : l1.responded_ = false
    · rw [if_pos hresp]
      obtain ⟨new, hnew, hcase⟩ := deliveredAtMostOnce_send hinv (errorResponse v.error_code)
      rcases hcase with ⟨-, hr, -⟩ | ⟨-, hr, r, hd⟩
      · simp [SendResponse] at hr
      · exact ⟨⟨new, r, hnew, hd⟩, hr⟩
    · rw [if_neg hresp]
      obtain ⟨new, hnew, hcase⟩ := hinv
      rcases hcase with ⟨-, hr, -⟩ | ⟨-, hr, r, hd⟩
      · exact absurd hr hresp
      · exact ⟨⟨new, r, hnew, hd⟩, hr⟩

/-- C5, on a run with one redirect: the first attempt answers 301, the second
delivers a response; the loop terminates and the handle `3` receives that one
response. -/
theorem C5_Start_delivers_exactly_once_witness :
    ∃ l', URLLoaderImpl.new.responded_ = false ∧
      Start false (redirectOnce "http://d.e:81/f".toList) URLLoaderImpl.new
        (getRequest "http://a.b/c") 3 2 = some l' ∧
      (∃ new r, l'.log = URLLoaderImpl.new.log ++ new ∧ deliveries new = [(3, r)]) ∧
      l'.responded_ = true :=
  ⟨_, rfl, rfl,
    C5_Start_delivers_exactly_once false (redirectOnce "http://d.e:81/f".toList)
      URLLoaderImpl.new (getRequest "http://a.b/c") 3 2 _ rfl rfl⟩

/-- C6: a URL that fails to parse resolves to `INVALID_ARGUMENT`. `Start` on an
idle loader with such a URL delivers one `INVALID_ARGUMENT` error response and
makes no adapter invocation; and at any hop whose current URL fails to parse
the loop ends at once with `error_code = INVALID_ARGUMENT`, the loader and its
log untouched - in particular right after a hop that reported a redirect to
such a location. -/
theorem C6_malformed_url_invalid_argument (useHttps : Bool) (env : Transport) (url : Str)
    (hbad : ParseURL url = none) :
    (∀ (method : Str) (headers : Option (List HttpHeader)) (body : Option (List Nat))
        (cb0 : Option Handle) (log : List Event) (callback : Handle) (fuel : Nat),
      Start useHttps env ⟨cb0, false, log⟩ ⟨url, method, headers, body⟩ callback (fuel + 1)
        = some ⟨none, true,
            log ++ [Event.run callback (errorResponse NetError.ERR_INVALID_ARGUMENT)]⟩) ∧
    (∀ (method : Str) (hdrs : List (Str × Str)) (rdrs : List UploadElementReader)
        (fuel i : Nat) (redirect : Bool) (error_code : NetError) (l : URLLoaderImpl),
      loop useHttps env method hdrs rdrs (fuel + 1) i ⟨url, redirect, error_code⟩ l
        = some (⟨url, redirect, NetError.ERR_INVALID_ARGUMENT⟩, l)) ∧
    (∀ (method : Str) (hdrs : List (Str × Str)) (rdrs : List UploadElementReader)
        (fuel i : Nat) (v : Locals) (l : URLLoaderImpl) (error_code : NetError)
        (l' : URLLoaderImpl),
      hop useHttps env method hdrs rdrs i v l = (false, ⟨url, true, error_code⟩, l') →
      loop useHttps env method hdrs rdrs (fuel + 2) i v l
        = some (⟨url, true, NetError.ERR_INVALID_ARGUMENT⟩, l')) := by
  have hloop : ∀ (method : Str) (hdrs : List (Str × Str)) (rdrs : List UploadElementReader)
      (fuel i : Nat) (redirect : Bool) (error_code : NetError) (l : URLLoaderImpl),
      loop useHttps env method hdrs rdrs (fuel + 1) i ⟨url, redirect, error_code⟩ l
        = some (⟨url, redirect, NetError.ERR_INVALID_ARGUMENT⟩, l) := by
    intro method hdrs rdrs fuel i redirect error_code l
    rw [loop, hop_of_parse_none _ _ _ _ _ _ _ _ hbad]
  refine ⟨?_, hloop, ?_⟩
  · intro method headers body cb0 log callback fuel
    unfold Start StartInternal
    simp only [hloop]
    rfl
  · intro method hdrs rdrs fuel i v l error_code l' hhop
    rw [loop, hhop]
    simp only [if_true]
    exact hloop _ _ _ _ _ _ _ _

/-- C6, on the relative location `/new`: it fails to parse, a `Start` on it
delivers `INVALID_ARGUMENT` with no adapter invocation, and a `Start` whose
first attempt is redirected to it makes no second attempt. -/
theorem C6_malformed_url_invalid_argument_witness :
    ParseURL "/new".toList = none ∧
    Start false okTransport ⟨none, false, []⟩ ⟨"/new".toList, "GET".toList, none, none⟩ 3 1
      = some ⟨none, true,
          [] ++ [Event.run 3 (errorResponse NetError.ERR_INVALID_ARGUMENT)]⟩ ∧
    Start false (redirectOnce "/new".toList) URLLoaderImpl.new (getRequest "http://a.b/c") 3 2
      = some ⟨none, true,
          [Event.createRequest false ⟨"a.b".toList, "/c".toList, "GET".toList, [], []⟩,
           Event.start false "a.b".toList "http".toList,
           Event.run 3 (errorResponse NetError.ERR_INVALID_ARGUMENT)]⟩ :=
  ⟨by decide,
    (C6_malformed_url_invalid_argument false okTransport "/new".toList (by decide)).1
      "GET".toList none none none [] 3 0,
    rfl⟩

/-- C7, refuted at the sentinel host: `ftp://tq.mojoapps.io/x` parses with the
scheme `ftp`, yet `Start` invokes the adapter (on `tq-server:80`) and the
response delivered here is the `UNEXPECTED` fallback, not `INVALID_ARGUMENT`. -/
theorem C7_counterexample :
    ParseURL "ftp://tq.mojoapps.io/x".toList
      = some ⟨"ftp".toList, "tq.mojoapps.io".toList, "ftp".toList, "/x".toList⟩ ∧
    "ftp".toList ≠ http ∧ "ftp".toList ≠ https ∧
    Start false okTransport URLLoaderImpl.new (getRequest "ftp://tq.mojoapps.io/x") 3 1
      = some ⟨none, true,
          [Event.createRequest false ⟨"tq-server".toList, "/x".toList, "GET".toList, [], []⟩,
           Event.start false "tq-server".toList "80".toList,
           Event.run 3 (errorResponse NetError.ERR_UNEXPECTED)]⟩ ∧
    Start true okTransport URLLoaderImpl.new (getRequest "ftp://tq.mojoapps.io/x") 3 1
      = some ⟨none, true,
          [Event.createRequest false ⟨"tq-server".toList, "/x".toList, "GET".toList, [], []⟩,
           Event.start false "tq-server".toList "80".toList,
           Event.run 3 (errorResponse NetError.ERR_UNEXPECTED)]⟩ := by
  refine ⟨by decide, by decide, by decide, rfl, rfl⟩

/-- C7, amended: for a request whose URL parses with a scheme other than
`http` and `https` and a host other than the sentinel `tq.mojoapps.io`, `Start`
on an idle loader delivers one `INVALID_ARGUMENT` error response and makes no
adapter invocation. -/
theorem C7_unsupported_scheme (useHttps : Bool) (env : Transport) (l : URLLoaderImpl)
    (request : URLRequest) (callback : Handle) (fuel : Nat) (p : ParsedURL)
    (hparse : ParseURL request.url = some p) (hhttp : p.proto ≠ http)
    (hhttps : p.proto ≠ https) (hhost : p.host ≠ sentinelHost)
    (hidle : l.responded_ = false) :
    Start useHttps env l request callback (fuel + 1)
      = some ⟨none, true,
          l.log ++ [Event.run callback (errorResponse NetError.ERR_INVALID_ARGUMENT)]⟩ := by
  have ht : p = if useHttps = true then rewriteHost p else forceHttp (rewriteHost p) := by
    rw [rewriteHost_of_other p hhost, forceHttp_of_not_https p hhttps]
    simp
  unfold Start StartInternal
  simp only
  rw [loop, hop_of_parse_some useHttps env _ _ _ 0 _ _ p p hparse ht, if_neg hhttps,
    if_neg hhttp]
  simp only [hidle, if_true]
  rfl

/-- C7 amended, at `ftp://example.com/x`. -/
theorem C7_unsupported_scheme_witness :
    ParseURL (getRequest "ftp://example.com/x").url
      = some ⟨"ftp".toList, "example.com".toList, "ftp".toList, "/x".toList⟩ ∧
    Start false okTransport URLLoaderImpl.new (getRequest "ftp://example.com/x") 3 1
      = some ⟨none, true,
          URLLoaderImpl.new.log
            ++ [Event.run 3 (errorResponse NetError.ERR_INVALID_ARGUMENT)]⟩ :=
  ⟨by decide,
    C7_unsupported_scheme false okTransport URLLoaderImpl.new (getRequest "ftp://example.com/x")
      3 0 ⟨"ftp".toList, "example.com".toList, "ftp".toList, "/x".toList⟩
      (by decide) (by decide) (by decide) (by decide) rfl⟩

theorem parseSplit_nonempty {pre rest : Str} {p : ParsedURL}
    (h : parseSplit pre rest = some p) :
    p.proto ≠ [] ∧ p.host ≠ [] ∧ p.port ≠ [] ∧ p.path ≠ [] := by
  unfold parseSplit at h
  simp only at h
  by_cases hc : pre = [] ∨ hostOf rest = [] ∨
      (if ':' ∈ authorityOf rest then portTextOf rest else pre) = []
  · rw [if_pos hc] at h
    exact Option.noConfusion h
  · rw [if_neg hc] at h
    simp only [Option.some.injEq] at h
    subst h
    simp only [not_or] at hc
    refine ⟨hc.1, hc.2.1, hc.2.2, ?_⟩
    by_cases hp : pathTextOf rest = []
    · simp [hp]
    · simp [hp]

theorem ParseURL_nonempty {url : Str} {p : ParsedURL} (h : ParseURL url = some p) :
    p.proto ≠ [] ∧ p.host ≠ [] ∧ p.port ≠ [] ∧ p.path ≠ [] := by
  by_cases hsearch : search url delim = url.length
  · have hnone : ParseURL url = none := by
      unfold ParseURL
      simp [hsearch]
    rw [hnone] at h
    exact Option.noConfusion h
  · rw [ParseURL_eq_parseSplit (firstSplit_of_search hsearch)] at h
    exact parseSplit_nonempty h

theorem forceHttp_host (p : ParsedURL) : (forceHttp p).host = p.host := by
  unfold forceHttp
  split <;> rfl

theorem forceHttp_path (p : ParsedURL) : (forceHttp p).path = p.path := by
  unfold forceHttp
  split <;> rfl

theorem forceHttp_proto_ne_https (p : ParsedURL) : (forceHttp p).proto ≠ https := by
  unfold forceHttp
  split
  · exact http_ne_https
  · assumption

theorem dispatchEvents_ne_nil (c : HTTPClient) (secure : Bool) (req : BuiltRequest)
    (port : Str) : dispatchEvents c secure req port ≠ [] := by
  simp [dispatchEvents]

/-- C9: on every hop whose URL parses with the host `tq.mojoapps.io`, whatever
the scheme, port and path, the attempt goes to the plaintext client with host
`tq-server`, port `80` and the parsed path, and these are the only adapter
invocations of the hop; on a hop whose URL parses with another host, every
adapter invocation of the hop carries the parsed host, and there is one when
the scheme is `http` or `https`. -/
theorem C9_host_rewrite (useHttps : Bool) (env : Transport) (method : Str)
    (hdrs : List (Str × Str)) (rdrs : List UploadElementReader) (i : Nat) (v : Locals)
    (l : URLLoaderImpl) (p : ParsedURL) (hparse : ParseURL v.url = some p) :
    (p.host = sentinelHost →
      hop useHttps env method hdrs rdrs i v l
        = attempt (env i false) false ⟨http, rewrittenHost, port80, p.path⟩ method hdrs rdrs
            { v with redirect := false } l ∧
      adapterCalls (hop useHttps env method hdrs rdrs i v l).2.2.log
        = adapterCalls l.log ++ dispatchEvents (env i false) false
            ⟨rewrittenHost, p.path, method, hdrs, rdrs⟩ port80) ∧
    (p.host ≠ sentinelHost →
      ∃ new, adapterCalls (hop useHttps env method hdrs rdrs i v l).2.2.log
          = adapterCalls l.log ++ new ∧
        (new = [] ∨ ∃ secure port, new = dispatchEvents (env i secure) secure
            ⟨p.host, p.path, method, hdrs, rdrs⟩ port) ∧
        (p.proto = http ∨ p.proto = https → new ≠ [])) := by
  constructor
  · intro hhost
    have ht : (⟨http, rewrittenHost, port80, p.path⟩ : ParsedURL)
        = if useHttps = true then rewriteHost p else forceHttp (rewriteHost p) := by
      rw [rewriteHost_of_sentinel p hhost, forceHttp_of_not_https _ http_ne_https]
      simp
    have hhop := hop_of_parse_some useHttps env method hdrs rdrs i v l p _ hparse ht
    rw [if_neg http_ne_https, if_pos rfl] at hhop
    refine ⟨hhop, ?_⟩
    rw [hhop, attempt_adapterCalls]
  · intro hhost
    have hhop := hop_of_parse_some useHttps env method hdrs rdrs i v l p _ hparse rfl
    rw [rewriteHost_of_other p hhost] at hhop
    cases useHttps with
    | true =>
      simp only [if_true] at hhop
      by_cases h1 : p.proto = https
      · rw [if_pos h1] at hhop
        refine ⟨_, by rw [hhop, attempt_adapterCalls], Or.inr ⟨true, p.port, rfl⟩, ?_⟩
        exact fun _ => dispatchEvents_ne_nil _ _ _ _
      · rw [if_neg h1] at hhop
        by_cases h2 : p.proto = http
        · rw [if_pos h2] at hhop
          refine ⟨_, by rw [hhop, attempt_adapterCalls], Or.inr ⟨false, p.port, rfl⟩, ?_⟩
          exact fun _ => dispatchEvents_ne_nil _ _ _ _
        · rw [if_neg h2] at hhop
          refine ⟨[], by rw [hhop]; simp, Or.inl rfl, ?_⟩
          rintro (h | h)
          · exact absurd h h2
          · exact absurd h h1
    | false =>
      simp only [Bool.false_eq_true, if_false] at hhop
      rw [if_neg (forceHttp_proto_ne_https p)] at hhop
      by_cases h2 : (forceHttp p).proto = http
      · rw [if_pos h2] at hhop
        refine ⟨_, by rw [hhop, attempt_adapterCalls], Or.inr ⟨false, (forceHttp p).port, ?_⟩, ?_⟩
        · rw [forceHttp_host, forceHttp_path]
        · exact fun _ => dispatchEvents_ne_nil _ _ _ _
      · rw [if_neg h2] at hhop
        refine ⟨[], by rw [hhop]; simp, Or.inl rfl, ?_⟩
        rintro (h | h)
        · rw [forceHttp_of_not_https p (h ▸ http_ne_https)] at h2
          exact absurd h h2
        · rw [forceHttp_of_https p h] at h2
          exact absurd rfl h2

/-- C9, at `ftp://tq.mojoapps.io:21/x` (rewritten to `tq-server:80`) and at
`http://example.com:8080/a` (host kept). -/
theorem C9_host_rewrite_witness :
    (ParseURL "ftp://tq.mojoapps.io:21/x".toList
        = some ⟨"ftp".toList, sentinelHost, "21".toList, "/x".toList⟩ ∧
      adapterCalls (hop true okTransport "GET".toList [] [] 0
          ⟨"ftp://tq.mojoapps.io:21/x".toList, false, NetError.ERR_UNEXPECTED⟩
          URLLoaderImpl.new).2.2.log
        = adapterCalls URLLoaderImpl.new.log ++ dispatchEvents (okTransport 0 false) false
            ⟨rewrittenHost, "/x".toList, "GET".toList, [], []⟩ port80) ∧
    (ParseURL "http://example.com:8080/a".toList
        = some ⟨http, "example.com".toList, "8080".toList, "/a".toList⟩ ∧
      ∃ new, adapterCalls (hop true okTransport "GET".toList [] [] 0
            ⟨"http://example.com:8080/a".toList, false, NetError.ERR_UNEXPECTED⟩
            URLLoaderImpl.new).2.2.log
          = adapterCalls URLLoaderImpl.new.log ++ new ∧
        (new = [] ∨ ∃ secure port, new = dispatchEvents (okTransport 0 secure) secure
            ⟨"example.com".toList, "/a".toList, "GET".toList, [], []⟩ port) ∧
        (http = http ∨ http = https → new ≠ [])) :=
  ⟨⟨by decide,
      ((C9_host_rewrite true okTransport "GET".toList [] [] 0
          ⟨"ftp://tq.mojoapps.io:21/x".toList, false, NetError.ERR_UNEXPECTED⟩
          URLLoaderImpl.new ⟨"ftp".toList, sentinelHost, "21".toList, "/x".toList⟩
          (by decide)).1 rfl).2⟩,
    ⟨by decide,
      (C9_host_rewrite true okTransport "GET".toList [] [] 0
          ⟨"http://example.com:8080/a".toList, false, NetError.ERR_UNEXPECTED⟩
          URLLoaderImpl.new ⟨http, "example.com".toList, "8080".toList, "/a".toList⟩
          (by decide)).2 (by decide)⟩⟩

/-- C10, refuted at the sentinel host: `https://tq.mojoapps.io:8443/x` has the
scheme `https` and the explicit port `8443`, yet without secure-transport
support the attempt is made on host `tq-server` and port `80` (host and port
both changed), and with secure-transport support it is made on the plaintext
client, again on `tq-server:80`. -/
theorem C10_counterexample :
    ParseURL "https://tq.mojoapps.io:8443/x".toList
      = some ⟨https, "tq.mojoapps.io".toList, "8443".toList, "/x".toList⟩ ∧
    adapterCalls (hop false okTransport "GET".toList [] [] 0
        ⟨"https://tq.mojoapps.io:8443/x".toList, false, NetError.ERR_UNEXPECTED⟩
        URLLoaderImpl.new).2.2.log
      = [Event.createRequest false ⟨"tq-server".toList, "/x".toList, "GET".toList, [], []⟩,
         Event.start false "tq-server".toList "80".toList] ∧
    adapterCalls (hop true okTransport "GET".toList [] [] 0
        ⟨"https://tq.mojoapps.io:8443/x".toList, false, NetError.ERR_UNEXPECTED⟩
        URLLoaderImpl.new).2.2.log
      = [Event.createRequest false ⟨"tq-server".toList, "/x".toList, "GET".toList, [], []⟩,
         Event.start false "tq-server".toList "80".toList] ∧
    "tq-server".toList ≠ "tq.mojoapps.io".toList ∧ "80".toList ≠ "8443".toList := by
  refine ⟨by decide, by decide, by decide, by decide, by decide⟩

/-- C10, amended: for a URL with scheme `https` whose host is not the sentinel
`tq.mojoapps.io`: in a build without secure-transport support the attempt goes
to the plaintext client, on port `80` when the parsed port is `https` (no
explicit port) or `443` and on the parsed port otherwise, host and path
unchanged; in a build with secure-transport support it goes to the TLS client
with host, port and path as parsed. -/
theorem C10_https_dispatch (env : Transport) (method : Str)
    (hdrs : List (Str × Str)) (rdrs : List UploadElementReader) (i : Nat) (v : Locals)
    (l : URLLoaderImpl) (p : ParsedURL) (hparse : ParseURL v.url = some p)
    (hproto : p.proto = https) (hhost : p.host ≠ sentinelHost) :
    adapterCalls (hop false env method hdrs rdrs i v l).2.2.log
      = adapterCalls l.log ++ dispatchEvents (env i false) false
          ⟨p.host, p.path, method, hdrs, rdrs⟩
          (if p.port = https ∨ p.port = port443 then port80 else p.port) ∧
    adapterCalls (hop true env method hdrs rdrs i v l).2.2.log
      = adapterCalls l.log ++ dispatchEvents (env i true) true
          ⟨p.host, p.path, method, hdrs, rdrs⟩ p.port := by
  have hport : p.port ≠ [] := (ParseURL_nonempty hparse).2.2.1
  constructor
  · have hhop := hop_of_parse_some false env method hdrs rdrs i v l p _ hparse rfl
    simp only [Bool.false_eq_true, if_false] at hhop
    rw [rewriteHost_of_other p hhost, forceHttp_of_https p hproto,
      if_neg http_ne_https, if_pos rfl] at hhop
    rw [hhop, attempt_adapterCalls]
    have hcond : (p.port = port443 ∨ p.port = https ∨ p.port = [])
        ↔ (p.port = https ∨ p.port = port443) := by
      constructor
      · rintro (h | h | h)
        · exact Or.inr h
        · exact Or.inl h
        · exact absurd h hport
      · rintro (h | h)
        · exact Or.inr (Or.inl h)
        · exact Or.inl h
    simp only [hcond]
  · have hhop := hop_of_parse_some true env method hdrs rdrs i v l p _ hparse rfl
    simp only [if_true] at hhop
    rw [rewriteHost_of_other p hhost, if_pos hproto] at hhop
    rw [hhop, attempt_adapterCalls]

/-- C10 amended, at `https://example.com/a`: without secure-transport support
the plaintext client is started on port `80`; with it the TLS client is started
on the parsed port, which is the scheme string. -/
theorem C10_https_dispatch_witness :
    ParseURL "https://example.com/a".toList
      = some ⟨https, "example.com".toList, https, "/a".toList⟩ ∧
    adapterCalls (hop false okTransport "GET".toList [] [] 0
        ⟨"https://example.com/a".toList, false, NetError.ERR_UNEXPECTED⟩
        URLLoaderImpl.new).2.2.log
      = adapterCalls URLLoaderImpl.new.log ++ dispatchEvents (okTransport 0 false) false
          ⟨"example.com".toList, "/a".toList, "GET".toList, [], []⟩
          (if https = https ∨ https = port443 then port80 else https) ∧
    adapterCalls (hop true okTransport "GET".toList [] [] 0
        ⟨"https://example.com/a".toList, false, NetError.ERR_UNEXPECTED⟩
        URLLoaderImpl.new).2.2.log
      = adapterCalls URLLoaderImpl.new.log ++ dispatchEvents (okTransport 0 true) true
          ⟨"example.com".toList, "/a".toList, "GET".toList, [], []⟩ https :=
  ⟨by decide,
    C10_https_dispatch okTransport "GET".toList [] [] 0
      ⟨"https://example.com/a".toList, false, NetError.ERR_UNEXPECTED⟩
      URLLoaderImpl.new ⟨https, "example.com".toList, https, "/a".toList⟩
      (by decide) rfl (by decide)⟩

/-! ## The redirect chain -/

/-- C8, refuted at a location on the sentinel host: the first attempt answers
301 with the location `http://tq.mojoapps.io:8080/x`, which parses to an http
URL with host `tq.mojoapps.io` and port `8080`, yet the second invocation is
made on host `tq-server` and port `80`. -/
theorem C8_counterexample :
    ParseURL "http://tq.mojoapps.io:8080/x".toList
      = some ⟨http, "tq.mojoapps.io".toList, "8080".toList, "/x".toList⟩ ∧
    Start false (redirectOnce "http://tq.mojoapps.io:8080/x".toList) URLLoaderImpl.new
        (getRequest "http://a.b/c") 3 2
      = some ⟨none, true,
          [Event.createRequest false ⟨"a.b".toList, "/c".toList, "GET".toList, [], []⟩,
           Event.start false "a.b".toList "http".toList,
           Event.createRequest false ⟨"tq-server".toList, "/x".toList, "GET".toList, [], []⟩,
           Event.start false "tq-server".toList "80".toList,
           Event.run 3 ⟨none, some 7⟩]⟩ ∧
    "tq-server".toList ≠ "tq.mojoapps.io".toList ∧ "80".toList ≠ "8080".toList := by
  refine ⟨by decide, rfl, by decide, by decide⟩

/-- C11: in every loader state, `FollowRedirect` delivers exactly one response,
to the supplied handle, namely the error `NOT_IMPLEMENTED`; it makes no adapter
invocation and leaves `responded_` true. -/
theorem C11_FollowRedirect_not_implemented (l : URLLoaderImpl) (callback : Handle) :
    FollowRedirect l callback
      = ⟨none, true,
          l.log ++ [Event.run callback (errorResponse NetError.ERR_NOT_IMPLEMENTED)]⟩ ∧
    deliveries (FollowRedirect l callback).log
      = deliveries l.log ++ [(callback, errorResponse NetError.ERR_NOT_IMPLEMENTED)] ∧
    adapterCalls (FollowRedirect l callback).log = adapterCalls l.log ∧
    (FollowRedirect l callback).responded_ = true := by
  have h : FollowRedirect l callback
      = ⟨none, true,
          l.log ++ [Event.run callback (errorResponse NetError.ERR_NOT_IMPLEMENTED)]⟩ := rfl
  refine ⟨h, ?_, ?_, ?_⟩
  · rw [h, deliveries_append]
    rfl
  · rw [h, adapterCalls_append]
    simp [adapterCalls]
  · rw [h]

/-- C12: in every loader state, `QueryStatus` runs the status handle exactly
once, with the error `NOT_IMPLEMENTED`, and leaves `responded_` and the stored
response handle unchanged; no response is delivered and no adapter invocation
is made. -/
theorem C12_QueryStatus_not_implemented (l : URLLoaderImpl) (callback : Handle) :
    (QueryStatus l callback).log
      = l.log ++ [Event.runStatus callback NetError.ERR_NOT_IMPLEMENTED] ∧
    (QueryStatus l callback).responded_ = l.responded_ ∧
    (QueryStatus l callback).callback_ = l.callback_ ∧
    deliveries (QueryStatus l callback).log = deliveries l.log ∧
    adapterCalls (QueryStatus l callback).log = adapterCalls l.log := by
  refine ⟨rfl, rfl, rfl, ?_, ?_⟩
  · show deliveries (l.log ++ _) = _
    rw [deliveries_append]
    simp [deliveries]
  · show adapterCalls (l.log ++ _) = _
    rw [adapterCalls_append]
    simp [adapterCalls]

/-! ## The shape of a successful parse -/

theorem authorityOf_no_slash (rest : Str) : '/' ∉ authorityOf rest := by
  intro h
  have := List.mem_takeWhile_imp h
  simp at this

theorem hostOf_no_colon (rest : Str) : ':' ∉ hostOf rest := by
  intro h
  have := List.mem_takeWhile_imp h
  simp at this

theorem hostOf_no_slash (rest : Str) : '/' ∉ hostOf rest := by
  intro h
  have := List.mem_takeWhile_imp h
  simp at this

theorem portTextOf_no_slash (rest : Str) : '/' ∉ portTextOf rest := by
  intro h
  unfold portTextOf at h
  exact authorityOf_no_slash rest (List.dropWhile_subset _ (List.mem_of_mem_drop h))

theorem pathTextOf_head (rest : Str) (h : pathTextOf rest ≠ []) :
    (pathTextOf rest).head? = some '/' := by
  unfold pathTextOf at h ⊢
  cases hd : rest.dropWhile (fun c => c != '/') with
  | nil => exact absurd hd h
  | cons c t =>
    have h1 := List.head?_dropWhile_not (fun c => c != '/') rest
    rw [hd] at h1
    simp only [List.head?_cons] at h1
    have hc : c = '/' := by simpa using h1
    rw [hc]
    rfl

theorem rest_eq_authority_path (rest : Str) : rest = authorityOf rest ++ pathTextOf rest := by
  unfold authorityOf pathTextOf
  exact (List.takeWhile_append_dropWhile _ rest).symm

theorem authority_eq_host_port (rest : Str) :
    authorityOf rest = hostOf rest ++
      (if ':' ∈ authorityOf rest then ':' :: portTextOf rest else []) := by
  have hsplit := (List.takeWhile_append_dropWhile (fun c => c != ':') (authorityOf rest)).symm
  rw [← hostOf_eq] at hsplit
  by_cases hm : ':' ∈ authorityOf rest
  · rw [if_pos hm]
    cases hd : (authorityOf rest).dropWhile (fun c => c != ':') with
    | nil =>
      rw [hd, List.append_nil] at hsplit
      rw [hsplit] at hm
      exact absurd hm (hostOf_no_colon rest)
    | cons c t =>
      have h1 := List.head?_dropWhile_not (fun c => c != ':') (authorityOf rest)
      rw [hd] at h1
      simp only [List.head?_cons] at h1
      have hc : c = ':' := by simpa using h1
      have hport : portTextOf rest = t := by
        unfold portTextOf
        rw [hd]
        rfl
      rw [hd, hc, ← hport] at hsplit
      exact hsplit
  · rw [if_neg hm, List.append_nil]
    cases hd : (authorityOf rest).dropWhile (fun c => c != ':') with
    | nil =>
      rw [hd, List.append_nil] at hsplit
      exact hsplit
    | cons c t =>
      have h1 := List.head?_dropWhile_not (fun c => c != ':') (authorityOf rest)
      rw [hd] at h1
      simp only [List.head?_cons] at h1
      have hc : c = ':' := by simpa using h1
      have hmem : c ∈ authorityOf rest :=
        List.dropWhile_subset _ (hd ▸ List.mem_cons_self c t)
      exact absurd (hc ▸ hmem) hm

theorem firstSplit_no_delim {url pre rest : Str} (h : FirstSplit url pre rest) :
    ¬ delim <:+: pre := by
  rintro ⟨a, b, hab⟩
  obtain ⟨hu, hmin⟩ := h
  have h1 := hmin a (b ++ delim ++ rest) (by rw [hu, ← hab]; simp [List.append_assoc])
  have h2 : pre.length = a.length + 3 + b.length := by
    rw [← hab]; simp [delim]; omega
  omega

/-- Every successful parse is the split form of the URL around its first
separator. -/
theorem ParseURL_some_split {url : Str} {p : ParsedURL} (h : ParseURL url = some p) :
    ∃ pre rest, FirstSplit url pre rest ∧ parseSplit pre rest = some p := by
  by_cases hsearch : search url delim = url.length
  · have hnone : ParseURL url = none := by
      unfold ParseURL
      simp [hsearch]
    rw [hnone] at h
    exact Option.noConfusion h
  · have hfs := firstSplit_of_search hsearch
    exact ⟨_, _, hfs, (ParseURL_eq_parseSplit hfs) ▸ h⟩

theorem parseSplit_some {pre rest : Str} {p : ParsedURL} (h : parseSplit pre rest = some p) :
    p.proto = pre ∧ p.host = hostOf rest ∧
    p.port = (if ':' ∈ authorityOf rest then portTextOf rest else pre) ∧
    p.path = (if pathTextOf rest = [] then ['/'] else pathTextOf rest) := by
  unfold parseSplit at h
  simp only at h
  by_cases hc : pre = [] ∨ hostOf rest = [] ∨
      (if ':' ∈ authorityOf rest then portTextOf rest else pre) = []
  · rw [if_pos hc] at h
    exact Option.noConfusion h
  · rw [if_neg hc] at h
    simp only [Option.some.injEq] at h
    subst h
    exact ⟨rfl, rfl, rfl, rfl⟩

/-- C19, refuted at a scheme with a `/`: `a/b://host` parses, and its port,
defaulted to the scheme string, contains `/`. -/
theorem C19_counterexample :
    ParseURL "a/b://host".toList
      = some ⟨"a/b".toList, "host".toList, "a/b".toList, "/".toList⟩ ∧
    '/' ∈ "a/b".toList := by
  refine ⟨by decide, by decide⟩

/-- C19, amended: on every successful parse the four components are
non-empty, the scheme does not contain `://`, the host contains neither `:` nor
`/`, the path begins with `/`, and the port contains no `/` unless it is the
scheme string taken as the default. -/
theorem C19_ParseURL_component_shape (url : Str) (p : ParsedURL)
    (h : ParseURL url = some p) :
    p.proto ≠ [] ∧ p.host ≠ [] ∧ p.port ≠ [] ∧ p.path ≠ [] ∧
    ¬ "://".toList <:+: p.proto ∧ ':' ∉ p.host ∧ '/' ∉ p.host ∧
    ('/' ∉ p.port ∨ p.port = p.proto) ∧ p.path.head? = some '/' := by
  obtain ⟨hne1, hne2, hne3, hne4⟩ := ParseURL_nonempty h
  obtain ⟨pre, rest, hfs, hsplit⟩ := ParseURL_some_split h
  obtain ⟨hproto, hhost, hport, hpath⟩ := parseSplit_some hsplit
  refine ⟨hne1, hne2, hne3, hne4, ?_, ?_, ?_, ?_, ?_⟩
  · rw [hproto]
    exact firstSplit_no_delim hfs
  · rw [hhost]
    exact hostOf_no_colon rest
  · rw [hhost]
    exact hostOf_no_slash rest
  · by_cases hm : ':' ∈ authorityOf rest
    · rw [if_pos hm] at hport
      exact Or.inl (hport ▸ portTextOf_no_slash rest)
    · rw [if_neg hm] at hport
      exact Or.inr (hport.trans hproto.symm)
  · by_cases hp : pathTextOf rest = []
    · rw [if_pos hp] at hpath
      rw [hpath]
      rfl
    · rw [if_neg hp] at hpath
      rw [hpath]
      exact pathTextOf_head rest hp

/-- C19 amended, at `http://example.com:8080/a/b`. -/
theorem C19_ParseURL_component_shape_witness :
    ParseURL "http://example.com:8080/a/b".toList
      = some ⟨http, "example.com".toList, "8080".toList, "/a/b".toList⟩ ∧
    ('/' ∉ "8080".toList ∨ "8080".toList = http) ∧
    "/a/b".toList.head? = some '/' :=
  ⟨by decide,
    (C19_ParseURL_component_shape "http://example.com:8080/a/b".toList
      ⟨http, "example.com".toList, "8080".toList, "/a/b".toList⟩ (by decide)).2.2.2.2.2.2.2⟩

/-- C20: `ParseURL` loses no character: on success the URL is
`scheme ++ "://" ++ host ++ A ++ B`, where `A` is `":" ++ port`, or empty with
the port equal to the scheme, and `B` is the path, or empty with the path
equal to `"/"`. -/
theorem C20_ParseURL_loses_nothing (url : Str) (p : ParsedURL)
    (h : ParseURL url = some p) :
    ∃ A B, url = p.proto ++ "://".toList ++ p.host ++ A ++ B ∧
      (A = ":".toList ++ p.port ∨ (A = [] ∧ p.port = p.proto)) ∧
      (B = p.path ∨ (B = [] ∧ p.path = "/".toList)) := by
  obtain ⟨pre, rest, hfs, hsplit⟩ := ParseURL_some_split h
  obtain ⟨hproto, hhost, hport, hpath⟩ := parseSplit_some hsplit
  refine ⟨if ':' ∈ authorityOf rest then ':' :: portTextOf rest else [],
    pathTextOf rest, ?_, ?_, ?_⟩
  · have hu : url = pre ++ delim ++ rest := hfs.1
    rw [hproto, hhost, List.append_assoc _ (hostOf rest), ← authority_eq_host_port,
      List.append_assoc _ (authorityOf rest), ← rest_eq_authority_path]
    exact hu
  · by_cases hm : ':' ∈ authorityOf rest
    · rw [if_pos hm] at hport ⊢
      exact Or.inl (by rw [hport]; rfl)
    · rw [if_neg hm] at hport ⊢
      exact Or.inr ⟨rfl, hport.trans hproto.symm⟩
  · by_cases hp : pathTextOf rest = []
    · rw [if_pos hp] at hpath
      exact Or.inr ⟨hp, hpath⟩
    · rw [if_neg hp] at hpath
      exact Or.inl hpath.symm

/-- C20, at `http://example.com:8080/a/b`. -/
theorem C20_ParseURL_loses_nothing_witness :
    ParseURL "http://example.com:8080/a/b".toList
      = some ⟨http, "example.com".toList, "8080".toList, "/a/b".toList⟩ ∧
    ∃ A B, "http://example.com:8080/a/b".toList
        = http ++ "://".toList ++ "example.com".toList ++ A ++ B ∧
      (A = ":".toList ++ "8080".toList ∨ (A = [] ∧ "8080".toList = http)) ∧
      (B = "/a/b".toList ∨ (B = [] ∧ "/a/b".toList = "/".toList)) :=
  ⟨by decide,
    C20_ParseURL_loses_nothing "http://example.com:8080/a/b".toList
      ⟨http, "example.com".toList, "8080".toList, "/a/b".toList⟩ (by decide)⟩

/-! ## Lemmas on the loop followed hop by hop -/

theorem loop_eq_loopAfter (useHttps : Bool) (env : Transport) (method : Str)
    (hdrs : List (Str × Str)) (rdrs : List UploadElementReader) (fuel : Nat) :
    ∀ (i : Nat) (v : Locals) (l : URLLoaderImpl),
      loop useHttps env method hdrs rdrs fuel i v l =
        match loopAfter useHttps env method hdrs rdrs fuel i v l with
        | (LoopStatus.running, _, _) => none
        | (_, v', l') => some (v', l') := by
  induction fuel with
  | zero =>
    intro i v l
    rfl
  | succ n ih =>
    intro i v l
    rw [loop, loopAfter]
    rcases hres : hop useHttps env method hdrs rdrs i v l with ⟨brk, v1, l1⟩
    cases brk with
    | true => rfl
    | false =>
      simp only
      split
      · exact ih _ _ _
      · rfl

theorem loop_of_loopAfter {useHttps : Bool} {env : Transport} {method : Str}
    {hdrs : List (Str × Str)} {rdrs : List UploadElementReader} {fuel i : Nat}
    {v v' : Locals} {l l' : URLLoaderImpl} {s : LoopStatus}
    (h : loopAfter useHttps env method hdrs rdrs fuel i v l = (s, v', l'))
    (hs : s ≠ LoopStatus.running) :
    loop useHttps env method hdrs rdrs fuel i v l = some (v', l') := by
  rw [loop_eq_loopAfter, h]
  cases s with
  | running => exact absurd rfl hs
  | broke => rfl
  | finished => rfl

theorem loop_none_of_running {useHttps : Bool} {env : Transport} {method : Str}
    {hdrs : List (Str × Str)} {rdrs : List UploadElementReader} {fuel i : Nat}
    {v v' : Locals} {l l' : URLLoaderImpl}
    (h : loopAfter useHttps env method hdrs rdrs fuel i v l = (LoopStatus.running, v', l')) :
    loop useHttps env method hdrs rdrs fuel i v l = none := by
  rw [loop_eq_loopAfter, h]

/-- Once `k` iterations leave the loop running, the iterations after them are
those of the loop started at the state reached. -/
theorem loopAfter_add (useHttps : Bool) (env : Transport) (method : Str)
    (hdrs : List (Str × Str)) (rdrs : List UploadElementReader) (k : Nat) :
    ∀ (m i : Nat) (v vk : Locals) (l lk : URLLoaderImpl),
      loopAfter useHttps env method hdrs rdrs k i v l = (LoopStatus.running, vk, lk) →
      loopAfter useHttps env method hdrs rdrs (k + m) i v l
        = loopAfter useHttps env method hdrs rdrs m (i + k) vk lk := by
  induction k with
  | zero =>
    intro m i v vk l lk h
    simp only [loopAfter, Prod.mk.injEq, true_and] at h
    obtain ⟨rfl, rfl⟩ := h
    simp
  | succ n ih =>
    intro m i v vk l lk h
    have hfuel : n + 1 + m = (n + m) + 1 := by omega
    rw [hfuel, loopAfter]
    rw [loopAfter] at h
    rcases hres : hop useHttps env method hdrs rdrs i v l with ⟨brk, v1, l1⟩
    rw [hres] at h
    cases brk with
    | true => simp at h
    | false =>
      simp only at h ⊢
      by_cases hr : v1.redirect = true
      · rw [if_pos hr] at h ⊢
        rw [ih m (i + 1) v1 vk l1 lk h]
        congr 1
        omega
      · rw [if_neg hr] at h
        simp at h

theorem stable_calls {method : Str} {hdrs : List (Str × Str)}
    {rdrs : List UploadElementReader} {I : URLLoaderImpl → Prop}
    (hI : Stable method hdrs rdrs I) {l : URLLoaderImpl} (h : I l) (cs : List LoaderCall) :
    I (cs.foldl applyCall l) := by
  cases cs with
  | nil => exact h
  | cons c cs =>
    rw [foldl_applyCall_cons]
    exact hI.2.2 _ _ h

theorem stable_attempt {method : Str} {hdrs : List (Str × Str)}
    {rdrs : List UploadElementReader} {I : URLLoaderImpl → Prop}
    (hI : Stable method hdrs rdrs I) {l : URLLoaderImpl} (h : I l) (c : HTTPClient)
    (secure : Bool) (p : ParsedURL) (v : Locals) :
    I (attempt c secure p method hdrs rdrs v l).2.2 := by
  unfold attempt
  simp only
  split
  · exact hI.1 _ _ _ _ h
  · have h2 := hI.2.1 _ secure p.host p.port (hI.1 _ secure p.host p.path h)
    split <;> exact stable_calls hI h2 _

theorem stable_hop {method : Str} {hdrs : List (Str × Str)}
    {rdrs : List UploadElementReader} {I : URLLoaderImpl → Prop}
    (hI : Stable method hdrs rdrs I) {l : URLLoaderImpl} (h : I l) (useHttps : Bool)
    (env : Transport) (i : Nat) (v : Locals) :
    I (hop useHttps env method hdrs rdrs i v l).2.2 := by
  unfold hop
  split
  · exact h
  · simp only
    repeat' split
    all_goals first
      | exact h
      | exact stable_attempt hI h _ _ _ _

theorem stable_loopAfter {method : Str} {hdrs : List (Str × Str)}
    {rdrs : List UploadElementReader} {I : URLLoaderImpl → Prop}
    (hI : Stable method hdrs rdrs I) (useHttps : Bool) (env : Transport) (n : Nat) :
    ∀ (i : Nat) (v : Locals) (l : URLLoaderImpl), I l →
      I (loopAfter useHttps env method hdrs rdrs n i v l).2.2 := by
  induction n with
  | zero =>
    intro i v l h
    exact h
  | succ n ih =>
    intro i v l h
    have hhop := stable_hop hI h useHttps env i v
    rw [loopAfter]
    rcases hres : hop useHttps env method hdrs rdrs i v l with ⟨brk, v1, l1⟩
    rw [hres] at hhop
    cases brk with
    | true => exact hhop
    | false =>
      simp only
      split
      · exact ih _ _ _ hhop
      · exact hhop

theorem stable_loop {method : Str} {hdrs : List (Str × Str)}
    {rdrs : List UploadElementReader} {I : URLLoaderImpl → Prop}
    (hI : Stable method hdrs rdrs I) {useHttps : Bool} {env : Transport} {fuel i : Nat}
    {v v' : Locals} {l l' : URLLoaderImpl} (h : I l)
    (hrun : loop useHttps env method hdrs rdrs fuel i v l = some (v', l')) : I l' := by
  have hst := stable_loopAfter hI useHttps env fuel i v l h
  rw [loop_eq_loopAfter] at hrun
  rcases hres : loopAfter useHttps env method hdrs rdrs fuel i v l with ⟨s, v1, l1⟩
  rw [hres] at hrun hst
  cases s with
  | running => simp at hrun
  | broke =>
    simp only [Option.some.injEq, Prod.mk.injEq] at hrun
    exact hrun.2 ▸ hst
  | finished =>
    simp only [Option.some.injEq, Prod.mk.injEq] at hrun
    exact hrun.2 ▸ hst

theorem stable_deliveredAtMostOnce (method : Str) (hdrs : List (Str × Str))
    (rdrs : List UploadElementReader) (cb : Handle) (l0 : URLLoaderImpl) :
    Stable method hdrs rdrs (DeliveredAtMostOnce cb l0) :=
  ⟨fun _ _ _ _ h => deliveredAtMostOnce_log h _ rfl,
    fun _ _ _ _ h => deliveredAtMostOnce_log h _ rfl,
    fun _ _ h => deliveredAtMostOnce_send h _⟩

theorem stable_handledAtMostOnce (method : Str) (hdrs : List (Str × Str))
    (rdrs : List UploadElementReader) (cb : Handle) (l0 : URLLoaderImpl) :
    Stable method hdrs rdrs (HandledAtMostOnce cb l0) := by
  refine ⟨?_, ?_, ?_⟩
  · rintro l secure host path ⟨new, hnew, hcase⟩
    refine ⟨new ++ [Event.createRequest secure ⟨host, path, method, hdrs, rdrs⟩],
      by simp [hnew], ?_⟩
    rw [deliveries_append]
    simpa [deliveries] using hcase
  · rintro l secure host port ⟨new, hnew, hcase⟩
    refine ⟨new ++ [Event.start secure host port], by simp [hnew], ?_⟩
    rw [deliveries_append]
    simpa [deliveries] using hcase
  · rintro l r ⟨new, hnew, hcase⟩
    rcases hcase with ⟨hcb, hd⟩ | ⟨hcb, r0, hd⟩
    · refine ⟨new ++ [Event.run cb r], ?_, Or.inr ⟨rfl, r, ?_⟩⟩
      · simp [SendResponse, Callback.Run, hcb, hnew]
      · rw [deliveries_append, hd]; rfl
    · refine ⟨new, ?_, Or.inr ⟨rfl, r0, hd⟩⟩
      simp [SendResponse, Callback.Run, hcb, hnew]

theorem stable_headersPassed (method : Str) (hdrs : List (Str × Str))
    (rdrs : List UploadElementReader) (l0 : URLLoaderImpl) :
    Stable method hdrs rdrs (HeadersPassed hdrs l0) := by
  refine ⟨?_, ?_, ?_⟩
  · rintro l secure host path ⟨new, hnew, hall⟩
    refine ⟨new ++ [Event.createRequest secure ⟨host, path, method, hdrs, rdrs⟩],
      by simp [hnew], ?_⟩
    intro s req hmem
    rcases List.mem_append.mp hmem with h | h
    · exact hall s req h
    · simp only [List.mem_singleton, Event.createRequest.injEq] at h
      rw [h.2]
  · rintro l secure host port ⟨new, hnew, hall⟩
    refine ⟨new ++ [Event.start secure host port], by simp [hnew], ?_⟩
    intro s req hmem
    rcases List.mem_append.mp hmem with h | h
    · exact hall s req h
    · simp at h
  · rintro l r ⟨new, hnew, hall⟩
    cases hcb : l.callback_ with
    | none =>
      exact ⟨new, by simp [SendResponse, Callback.Run, hcb, hnew], hall⟩
    | some cb =>
      refine ⟨new ++ [Event.run cb r], by simp [SendResponse, Callback.Run, hcb, hnew], ?_⟩
      intro s req hmem
      rcases List.mem_append.mp hmem with h | h
      · exact hall s req h
      · simp at h

/-! ## Lemmas on the header mapping -/

theorem mapFind_mapAssign (m : List (Str × Str)) (k v k' : Str) :
    mapFind (mapAssign m k v) k' = if k = k' then some v else mapFind m k' := by
  induction m with
  | nil =>
    simp only [mapAssign, mapFind]
  | cons e t ih =>
    obtain ⟨a, b⟩ := e
    by_cases h1 : a = k
    · subst h1
      simp only [mapAssign, if_true, mapFind]
      by_cases h2 : a = k'
      · simp [h2]
      · simp [h2]
    · simp only [mapAssign, if_neg h1, mapFind, ih]
      by_cases h2 : a = k'
      · have h3 : ¬ k = k' := fun e => h1 (h2.trans e.symm)
        simp [h2, h3]
      · simp [h2]

theorem keys_mapAssign (m : List (Str × Str)) (k v k' : Str) :
    k' ∈ (mapAssign m k v).map Prod.fst ↔ k' = k ∨ k' ∈ m.map Prod.fst := by
  induction m with
  | nil => simp [mapAssign]
  | cons e t ih =>
    obtain ⟨a, b⟩ := e
    by_cases h1 : a = k
    · subst h1
      simp [mapAssign]
    · simp only [mapAssign, if_neg h1, List.map_cons, List.mem_cons, ih]
      tauto

theorem nodup_mapAssign (m : List (Str × Str)) (k v : Str)
    (h : (m.map Prod.fst).Nodup) : ((mapAssign m k v).map Prod.fst).Nodup := by
  induction m with
  | nil => simp [mapAssign]
  | cons e t ih =>
    obtain ⟨a, b⟩ := e
    simp only [List.map_cons, List.nodup_cons] at h
    by_cases h1 : a = k
    · subst h1
      simp only [mapAssign, if_true, List.map_cons, List.nodup_cons]
      exact h
    · simp only [mapAssign, if_neg h1, List.map_cons, List.nodup_cons]
      refine ⟨?_, ih h.2⟩
      rw [keys_mapAssign]
      rintro (h2 | h2)
      · exact h1 h2
      · exact h.1 h2

theorem collect_spec (hs : List HttpHeader) :
    (∀ k, k ∈ (hs.foldl (fun m h => mapAssign m h.name h.value) []).map Prod.fst
        ↔ k ∈ hs.map HttpHeader.name) ∧
    ((hs.foldl (fun m h => mapAssign m h.name h.value) []).map Prod.fst).Nodup ∧
    (∀ k, mapFind (hs.foldl (fun m h => mapAssign m h.name h.value) []) k
        = lastValue hs k) := by
  induction hs using List.reverseRecOn with
  | nil =>
    refine ⟨fun k => by simp, by simp, fun k => rfl⟩
  | append_singleton hs h ih =>
    obtain ⟨hkeys, hnodup, hfind⟩ := ih
    simp only [List.foldl_append, List.foldl_cons, List.foldl_nil]
    refine ⟨?_, nodup_mapAssign _ _ _ hnodup, ?_⟩
    · intro k
      rw [keys_mapAssign, hkeys]
      simp only [List.map_append, List.map_cons, List.map_nil, List.mem_append,
        List.mem_singleton]
      tauto
    · intro k
      rw [mapFind_mapAssign, hfind]
      unfold lastValue
      rw [List.reverse_append]
      simp only [List.reverse_cons, List.reverse_nil, List.nil_append, List.singleton_append,
        List.find?_cons]
      by_cases hk : h.name = k
      · simp [hk]
      · simp [hk]

/-- C13: header collection is last-write-wins. The keys of the header mapping
built from a request are exactly the names in its header list, one entry per
name, each name is mapped to the value of its last occurrence, and every
`CreateRequest` of a `Start` on that request - after any number of hops, and in
the run as a whole when it terminates - is passed this mapping. -/
theorem C13_headers_last_write_wins (request : URLRequest) :
    (∀ k, k ∈ (collectHeaders request.headers).map Prod.fst
        ↔ k ∈ (request.headers.getD []).map HttpHeader.name) ∧
    ((collectHeaders request.headers).map Prod.fst).Nodup ∧
    (∀ k, mapFind (collectHeaders request.headers) k
        = lastValue (request.headers.getD []) k) ∧
    (∀ (useHttps : Bool) (env : Transport) (l : URLLoaderImpl) (callback : Handle) (n : Nat),
      HeadersPassed (collectHeaders request.headers) l
        (loopAfter useHttps env request.method (collectHeaders request.headers)
          (collectReaders request.body) n 0
          { url := request.url, redirect := false, error_code := NetError.ERR_UNEXPECTED }
          { l with callback_ := some callback }).2.2) ∧
    (∀ (useHttps : Bool) (env : Transport) (l : URLLoaderImpl) (callback : Handle)
        (fuel : Nat) (l' : URLLoaderImpl),
      Start useHttps env l request callback fuel = some l' →
      HeadersPassed (collectHeaders request.headers) l l') := by
  have hinit : ∀ (l : URLLoaderImpl) (callback : Handle),
      HeadersPassed (collectHeaders request.headers) l { l with callback_ := some callback } :=
    fun l callback => ⟨[], by simp, fun _ _ h => absurd h (List.not_mem_nil _)⟩
  have hstable := stable_headersPassed request.method (collectHeaders request.headers)
    (collectReaders request.body)
  have hspec : ∀ hs : List HttpHeader, collectHeaders (some hs)
      = hs.foldl (fun m h => mapAssign m h.name h.value) [] := fun _ => rfl
  refine ⟨?_, ?_, ?_, ?_, ?_⟩
  · intro k
    cases hh : request.headers with
    | none => simp [collectHeaders]
    | some hs =>
      rw [hspec]
      exact (collect_spec hs).1 k
  · cases hh : request.headers with
    | none => simp [collectHeaders]
    | some hs =>
      rw [hspec]
      exact (collect_spec hs).2.1
  · intro k
    cases hh : request.headers with
    | none => rfl
    | some hs =>
      rw [hspec]
      exact (collect_spec hs).2.2 k
  · intro useHttps env l callback n
    exact stable_loopAfter (hstable l) useHttps env n 0 _ _ (hinit l callback)
  · intro useHttps env l callback fuel l' hterm
    unfold Start StartInternal at hterm
    simp only at hterm
    split at hterm
    · exact Option.noConfusion hterm
    · rename_i v l1 hloop
      have hinv := stable_loop (hstable l) (hinit l callback) hloop
      simp only [Option.some.injEq] at hterm
      subst hterm
      split
      · exact (hstable l).2.2 _ _ hinv
      · exact hinv

/-- C13, on a request whose header list is `A: 1`, `B: 2`, `A: 3`: the mapping
has `A ↦ 3` and `B ↦ 2`, and the `CreateRequest` of the run is passed it. -/
theorem C13_headers_last_write_wins_witness :
    mapFind (collectHeaders dupHeaderRequest.headers) "A".toList = some "3".toList ∧
    Start false okTransport URLLoaderImpl.new dupHeaderRequest 3 1
      = some ⟨none, true,
          [Event.createRequest false
              ⟨"a.b".toList, "/c".toList, "GET".toList,
                [("A".toList, "3".toList), ("B".toList, "2".toList)], []⟩,
           Event.start false "a.b".toList "http".toList,
           Event.run 3 (errorResponse NetError.ERR_UNEXPECTED)]⟩ ∧
    HeadersPassed (collectHeaders dupHeaderRequest.headers) URLLoaderImpl.new
      ⟨none, true,
          [Event.createRequest false
              ⟨"a.b".toList, "/c".toList, "GET".toList,
                [("A".toList, "3".toList), ("B".toList, "2".toList)], []⟩,
           Event.start false "a.b".toList "http".toList,
           Event.run 3 (errorResponse NetError.ERR_UNEXPECTED)]⟩ :=
  ⟨by decide, rfl,
    (C13_headers_last_write_wins dupHeaderRequest).2.2.2.2 false okTransport
      URLLoaderImpl.new 3 1 _ rfl⟩

/-! ## Lemmas on the `Start` invocations in the log -/

theorem startCalls_SendResponse (l : URLLoaderImpl) (r : URLResponse) :
    startCalls (SendResponse l r).log = startCalls l.log := by
  cases h : l.callback_ <;> simp [SendResponse, Callback.Run, h, startCalls]

theorem startCalls_foldl_applyCall (l : URLLoaderImpl) (cs : List LoaderCall) :
    startCalls (cs.foldl applyCall l).log = startCalls l.log := by
  cases cs with
  | nil => rfl
  | cons c cs => rw [foldl_applyCall_cons, startCalls_SendResponse]

/-! ## How a hop and the loop are left -/

theorem attempt_fst (c : HTTPClient) (secure : Bool) (t : ParsedURL) (method : Str)
    (hdrs : List (Str × Str)) (rdrs : List UploadElementReader) (v : Locals)
    (l : URLLoaderImpl) :
    ((attempt c secure t method hdrs rdrs v l).1 = true
      ↔ c.CreateRequest ⟨t.host, t.path, method, hdrs, rdrs⟩ = false) ∧
    ((attempt c secure t method hdrs rdrs v l).1 = true →
      (attempt c secure t method hdrs rdrs v l).2.1.error_code
        = NetError.ERR_INVALID_ARGUMENT) ∧
    ((attempt c secure t method hdrs rdrs v l).1 = false →
      (attempt c secure t method hdrs rdrs v l).2.1.error_code = v.error_code) := by
  unfold attempt
  simp only
  by_cases hok : c.CreateRequest ⟨t.host, t.path, method, hdrs, rdrs⟩ = false
  · rw [if_pos hok]
    simp [hok]
  · rw [if_neg hok]
    split <;> simp [hok]

theorem attempt_of_fail (c : HTTPClient) (secure : Bool) (t : ParsedURL) (method : Str)
    (hdrs : List (Str × Str)) (rdrs : List UploadElementReader) (v : Locals)
    (l : URLLoaderImpl)
    (hfail : c.CreateRequest ⟨t.host, t.path, method, hdrs, rdrs⟩ = false) :
    attempt c secure t method hdrs rdrs v l =
      (true, { v with error_code := NetError.ERR_INVALID_ARGUMENT },
        { l with log := l.log ++
          [Event.createRequest secure ⟨t.host, t.path, method, hdrs, rdrs⟩] }) := by
  unfold attempt
  simp only
  rw [if_pos hfail]

theorem hop_of_client (useHttps : Bool) (env : Transport) (method : Str)
    (hdrs : List (Str × Str)) (rdrs : List UploadElementReader) (i : Nat) (v : Locals)
    (l : URLLoaderImpl) (p : ParsedURL) (secure : Bool) (h : ParseURL v.url = some p)
    (hc : clientOf useHttps (dispatchTarget useHttps p) = some secure) :
    hop useHttps env method hdrs rdrs i v l =
      attempt (env i secure) secure (dispatchTarget useHttps p) method hdrs rdrs
        { v with redirect := false } l := by
  rw [hop_of_parse_some useHttps env method hdrs rdrs i v l p (dispatchTarget useHttps p) h rfl]
  unfold clientOf at hc
  by_cases h1 : (dispatchTarget useHttps p).proto = https
  · rw [if_pos h1] at hc ⊢
    by_cases h2 : useHttps = true
    · rw [if_pos h2] at hc ⊢
      simp only [Option.some.injEq] at hc
      rw [← hc]
    · rw [if_neg h2] at hc
      exact Option.noConfusion hc
  · rw [if_neg h1] at hc ⊢
    by_cases h3 : (dispatchTarget useHttps p).proto = http
    · rw [if_pos h3] at hc ⊢
      simp only [Option.some.injEq] at hc
      rw [← hc]
    · rw [if_neg h3] at hc
      exact Option.noConfusion hc

theorem dispatchTarget_false_ne_https (p : ParsedURL) :
    (dispatchTarget false p).proto ≠ https :=
  forceHttp_proto_ne_https _

/-- A hop is left by `break` exactly on a parse failure, an unsupported scheme
or a build failure; it then sets `error_code` to `INVALID_ARGUMENT`, and
otherwise leaves `error_code` as it was. -/
theorem hop_break_iff (useHttps : Bool) (env : Transport) (method : Str)
    (hdrs : List (Str × Str)) (rdrs : List UploadElementReader) (i : Nat) (v : Locals)
    (l : URLLoaderImpl) :
    ((hop useHttps env method hdrs rdrs i v l).1 = true ↔
      (ParseFailure v ∨ UnsupportedScheme useHttps v ∨
        BuildFailure useHttps env method hdrs rdrs i v)) ∧
    ((hop useHttps env method hdrs rdrs i v l).1 = true →
      (hop useHttps env method hdrs rdrs i v l).2.1.error_code
        = NetError.ERR_INVALID_ARGUMENT) ∧
    ((hop useHttps env method hdrs rdrs i v l).1 = false →
      (hop useHttps env method hdrs rdrs i v l).2.1.error_code = v.error_code) := by
  cases hparse : ParseURL v.url with
  | none =>
    rw [hop_of_parse_none useHttps env method hdrs rdrs i v l hparse]
    refine ⟨⟨fun _ => Or.inl hparse, fun _ => rfl⟩, fun _ => rfl, fun h => ?_⟩
    exact absurd h (by simp)
  | some p =>
    have hnp : ¬ ParseFailure v := by
      unfold ParseFailure
      rw [hparse]
      exact fun h => Option.noConfusion h
    cases hc : clientOf useHttps (dispatchTarget useHttps p) with
    | some secure =>
      rw [hop_of_client useHttps env method hdrs rdrs i v l p secure hparse hc]
      obtain ⟨h1, h2, h3⟩ := attempt_fst (env i secure) secure (dispatchTarget useHttps p)
        method hdrs rdrs { v with redirect := false } l
      refine ⟨⟨fun h => Or.inr (Or.inr ⟨p, secure, hparse, hc, h1.mp h⟩), ?_⟩, h2, h3⟩
      rintro (h | ⟨q, hq, hq1, hq2⟩ | ⟨q, s, hq, hqc, hqf⟩)
      · exact absurd h hnp
      · rw [hparse] at hq
        simp only [Option.some.injEq] at hq
        subst hq
        unfold clientOf at hc
        rw [if_neg hq1, if_neg hq2] at hc
        exact Option.noConfusion hc
      · rw [hparse] at hq
        simp only [Option.some.injEq] at hq
        subst hq
        rw [hc] at hqc
        simp only [Option.some.injEq] at hqc
        subst hqc
        exact h1.mpr hqf
    | none =>
      rw [hop_of_parse_some useHttps env method hdrs rdrs i v l p (dispatchTarget useHttps p)
        hparse rfl]
      unfold clientOf at hc
      by_cases h1 : (dispatchTarget useHttps p).proto = https
      · rw [if_pos h1] at hc ⊢
        by_cases h2 : useHttps = true
        · rw [if_pos h2] at hc
          exact Option.noConfusion hc
        · have hf : useHttps = false := by simpa using h2
          subst hf
          exact absurd h1 (dispatchTarget_false_ne_https p)
      · rw [if_neg h1] at hc ⊢
        by_cases h3 : (dispatchTarget useHttps p).proto = http
        · rw [if_pos h3] at hc
          exact Option.noConfusion hc
        · rw [if_neg h3]
          refine ⟨⟨fun _ => Or.inr (Or.inl ⟨p, hparse, h1, h3⟩), fun _ => rfl⟩,
            fun _ => rfl, fun h => ?_⟩
          exact absurd h (by simp)

theorem loopAfter_error_code (useHttps : Bool) (env : Transport) (method : Str)
    (hdrs : List (Str × Str)) (rdrs : List UploadElementReader) (n : Nat) :
    ∀ (i : Nat) (v v' : Locals) (l l' : URLLoaderImpl) (s : LoopStatus),
      loopAfter useHttps env method hdrs rdrs n i v l = (s, v', l') →
      (s = LoopStatus.broke → v'.error_code = NetError.ERR_INVALID_ARGUMENT) ∧
      (s ≠ LoopStatus.broke → v'.error_code = v.error_code) := by
  induction n with
  | zero =>
    intro i v v' l l' s h
    simp only [loopAfter, Prod.mk.injEq] at h
    obtain ⟨rfl, rfl, rfl⟩ := h
    exact ⟨fun h => LoopStatus.noConfusion h, fun _ => rfl⟩
  | succ n ih =>
    intro i v v' l l' s h
    obtain ⟨-, hb, hk⟩ := hop_break_iff useHttps env method hdrs rdrs i v l
    rw [loopAfter] at h
    rcases hres : hop useHttps env method hdrs rdrs i v l with ⟨brk, v1, l1⟩
    rw [hres] at h hb hk
    cases brk with
    | true =>
      simp only [Prod.mk.injEq] at h
      obtain ⟨rfl, rfl, rfl⟩ := h
      exact ⟨fun _ => hb rfl, fun h => absurd rfl h⟩
    | false =>
      simp only at h
      have hv1 : v1.error_code = v.error_code := hk rfl
      by_cases hr : v1.redirect = true
      · rw [if_pos hr] at h
        obtain ⟨h1, h2⟩ := ih _ _ _ _ _ _ h
        exact ⟨h1, fun hs => (h2 hs).trans hv1⟩
      · rw [if_neg hr] at h
        simp only [Prod.mk.injEq] at h
        obtain ⟨rfl, rfl, rfl⟩ := h
        exact ⟨fun h => LoopStatus.noConfusion h, fun _ => hv1⟩

theorem loopAfter_broke_iff (useHttps : Bool) (env : Transport) (method : Str)
    (hdrs : List (Str × Str)) (rdrs : List UploadElementReader) (n : Nat) :
    ∀ (i : Nat) (v v' : Locals) (l l' : URLLoaderImpl),
      loopAfter useHttps env method hdrs rdrs n i v l = (LoopStatus.broke, v', l') ↔
      ∃ k vk lk, k < n ∧
        loopAfter useHttps env method hdrs rdrs k i v l = (LoopStatus.running, vk, lk) ∧
        hop useHttps env method hdrs rdrs (i + k) vk lk = (true, v', l') := by
  intro i v v' l l'
  constructor
  · induction n generalizing i v l with
    | zero =>
      intro h
      simp [loopAfter] at h
    | succ n ih =>
      intro h
      rw [loopAfter] at h
      rcases hres : hop useHttps env method hdrs rdrs i v l with ⟨brk, v1, l1⟩
      rw [hres] at h
      cases brk with
      | true =>
        simp only [Prod.mk.injEq, true_and] at h
        obtain ⟨rfl, rfl⟩ := h
        exact ⟨0, v, l, Nat.succ_pos n, rfl, hres⟩
      | false =>
        simp only at h
        by_cases hr : v1.redirect = true
        · rw [if_pos hr] at h
          obtain ⟨k, vk, lk, hk, hrun, hhop⟩ := ih (i + 1) v1 l1 h
          refine ⟨k + 1, vk, lk, Nat.succ_lt_succ hk, ?_, ?_⟩
          · rw [loopAfter, hres]
            simp only [hr, if_true]
            exact hrun
          · rw [← hhop]
            congr 1
            omega
        · rw [if_neg hr] at h
          simp at h
  · rintro ⟨k, vk, lk, hk, hrun, hhop⟩
    obtain ⟨m, rfl⟩ : ∃ m, n = k + (m + 1) := ⟨n - k - 1, by omega⟩
    rw [loopAfter_add useHttps env method hdrs rdrs k (m + 1) i v vk l lk hrun, loopAfter,
      hhop]

/-! ## The fallback of `StartInternal` -/

theorem Start_of_loopAfter {useHttps : Bool} {env : Transport} {l : URLLoaderImpl}
    {request : URLRequest} {callback : Handle} {fuel : Nat} {s : LoopStatus} {v' : Locals}
    {l' : URLLoaderImpl}
    (hexit : loopAfter useHttps env request.method (collectHeaders request.headers)
      (collectReaders request.body) fuel 0
      { url := request.url, redirect := false, error_code := NetError.ERR_UNEXPECTED }
      { l with callback_ := some callback } = (s, v', l'))
    (hs : s ≠ LoopStatus.running) :
    Start useHttps env l request callback fuel
      = some (if l'.responded_ = false then SendError l' v'.error_code else l') := by
  unfold Start StartInternal
  simp only
  rw [loop_of_loopAfter hexit hs]

/-- While nothing has been delivered during a `Start` on an idle loader, the
supplied handle is still stored and the log has gained no delivery. -/
theorem pending_of_loopAfter {useHttps : Bool} {env : Transport} {l : URLLoaderImpl}
    {request : URLRequest} {callback : Handle} {n : Nat} {s : LoopStatus} {v' : Locals}
    {l' : URLLoaderImpl} (hidle : l.responded_ = false)
    (hexit : loopAfter useHttps env request.method (collectHeaders request.headers)
      (collectReaders request.body) n 0
      { url := request.url, redirect := false, error_code := NetError.ERR_UNEXPECTED }
      { l with callback_ := some callback } = (s, v', l'))
    (hnone : l'.responded_ = false) :
    l'.callback_ = some callback ∧ deliveries l'.log = deliveries l.log := by
  have hinit : DeliveredAtMostOnce callback l { l with callback_ := some callback } :=
    deliveredAtMostOnce_refl callback l _ rfl rfl hidle
  have hinv := stable_loopAfter
    (stable_deliveredAtMostOnce request.method (collectHeaders request.headers)
      (collectReaders request.body) callback l) useHttps env n 0
    { url := request.url, redirect := false, error_code := NetError.ERR_UNEXPECTED }
    _ hinit
  rw [hexit] at hinv
  obtain ⟨new, hnew, hcase⟩ := hinv
  rcases hcase with ⟨hcb, -, hd⟩ | ⟨-, hr, -⟩
  · refine ⟨hcb, ?_⟩
    show deliveries l'.log = _
    rw [hnew, deliveries_append, hd, List.append_nil]
  · have hr' : l'.responded_ = true := hr
    rw [hnone] at hr'
    exact Bool.noConfusion hr'

theorem SendError_of_stored (l : URLLoaderImpl) (cb : Handle) (e : NetError)
    (h : l.callback_ = some cb) :
    SendError l e = ⟨none, true, l.log ++ [Event.run cb (errorResponse e)]⟩ := by
  simp [SendError, SendResponse, Callback.Run, h, errorResponse]

/-- C18: `UNEXPECTED` is the fallback error. When a `Start` on an idle loader
leaves its loop with nothing delivered by the adapter, it delivers exactly one
response, an error: `UNEXPECTED` when the loop was left by the `while` test
(every hop parsed, built and ran, the last status being neither 301 nor 302),
and `INVALID_ARGUMENT` when it was left by a `break` - which happens exactly
when some hop met a parse failure, an unsupported scheme or a build failure. -/
theorem C18_fallback_error_code (useHttps : Bool) (env : Transport) (l : URLLoaderImpl)
    (request : URLRequest) (callback : Handle) (fuel : Nat) (s : LoopStatus)
    (v' : Locals) (l' : URLLoaderImpl) (hidle : l.responded_ = false)
    (hexit : loopAfter useHttps env request.method (collectHeaders request.headers)
      (collectReaders request.body) fuel 0
      { url := request.url, redirect := false, error_code := NetError.ERR_UNEXPECTED }
      { l with callback_ := some callback } = (s, v', l'))
    (hs : s ≠ LoopStatus.running) (hnone : l'.responded_ = false) :
    Start useHttps env l request callback fuel
      = some ⟨none, true,
          l'.log ++ [Event.run callback (errorResponse
            (if s = LoopStatus.finished then NetError.ERR_UNEXPECTED
             else NetError.ERR_INVALID_ARGUMENT))]⟩ ∧
    deliveries (l'.log ++ [Event.run callback (errorResponse
            (if s = LoopStatus.finished then NetError.ERR_UNEXPECTED
             else NetError.ERR_INVALID_ARGUMENT))])
      = deliveries l.log ++ [(callback, errorResponse
            (if s = LoopStatus.finished then NetError.ERR_UNEXPECTED
             else NetError.ERR_INVALID_ARGUMENT))] ∧
    (s = LoopStatus.broke ↔
      ∃ k vk lk, k < fuel ∧
        loopAfter useHttps env request.method (collectHeaders request.headers)
          (collectReaders request.body) k 0
          { url := request.url, redirect := false, error_code := NetError.ERR_UNEXPECTED }
          { l with callback_ := some callback } = (LoopStatus.running, vk, lk) ∧
        (ParseFailure vk ∨ UnsupportedScheme useHttps vk ∨
          BuildFailure useHttps env request.method (collectHeaders request.headers)
            (collectReaders request.body) k vk)) ∧
    NetError.ERR_UNEXPECTED ≠ NetError.ERR_INVALID_ARGUMENT ∧
    NetError.ERR_UNEXPECTED ≠ NetError.ERR_NOT_IMPLEMENTED := by
  obtain ⟨hcb, hdel⟩ := pending_of_loopAfter hidle hexit hnone
  obtain ⟨hbroke, hother⟩ := loopAfter_error_code useHttps env _ _ _ fuel 0 _ v' _ l' s hexit
  have hcode : v'.error_code = (if s = LoopStatus.finished then NetError.ERR_UNEXPECTED
      else NetError.ERR_INVALID_ARGUMENT) := by
    cases s with
    | running => exact absurd rfl hs
    | broke => exact hbroke rfl
    | finished => exact hother (fun h => LoopStatus.noConfusion h)
  refine ⟨?_, ?_, ?_, fun h => NetError.noConfusion h, fun h => NetError.noConfusion h⟩
  · rw [Start_of_loopAfter hexit hs]
    simp only [hnone, if_true]
    rw [SendError_of_stored _ callback _ hcb, hcode]
  · rw [deliveries_append, hdel]
    rfl
  · constructor
    · intro hb
      subst hb
      obtain ⟨k, vk, lk, hk, hrun, hhop⟩ :=
        (loopAfter_broke_iff useHttps env _ _ _ fuel 0 _ v' _ l').mp hexit
      refine ⟨k, vk, lk, hk, hrun, ?_⟩
      have hflag := (hop_break_iff useHttps env request.method
        (collectHeaders request.headers) (collectReaders request.body) (0 + k) vk lk).1
      rw [hhop] at hflag
      simpa using hflag.mp rfl
    · rintro ⟨k, vk, lk, hk, hrun, hbreak⟩
      have hflag := (hop_break_iff useHttps env request.method
        (collectHeaders request.headers) (collectReaders request.body) (0 + k) vk lk).1
      rw [Nat.zero_add] at hflag
      have htrue := hflag.mpr hbreak
      rcases hres : hop useHttps env request.method (collectHeaders request.headers)
        (collectReaders request.body) k vk lk with ⟨brk, v1, l1⟩
      rw [hres] at htrue
      simp only at htrue
      subst htrue
      have hb := (loopAfter_broke_iff useHttps env _ _ _ fuel 0 _ v1 _ l1).mpr
        ⟨k, vk, lk, hk, hrun, by rw [Nat.zero_add]; exact hres⟩
      rw [hexit] at hb
      simp only [Prod.mk.injEq] at hb
      exact hb.1

/-- C18, on a transport that answers 200 without delivering: the loop of a
`Start` on `http://a.b/c` is left by the `while` test and `UNEXPECTED` is
delivered. -/
theorem C18_fallback_error_code_witness :
    Start false okTransport URLLoaderImpl.new (getRequest "http://a.b/c") 3 1
      = some ⟨none, true,
          [Event.createRequest false ⟨"a.b".toList, "/c".toList, "GET".toList, [], []⟩,
           Event.start false "a.b".toList "http".toList]
          ++ [Event.run 3 (errorResponse
            (if LoopStatus.finished = LoopStatus.finished then NetError.ERR_UNEXPECTED
             else NetError.ERR_INVALID_ARGUMENT))]⟩ :=
  (C18_fallback_error_code false okTransport URLLoaderImpl.new (getRequest "http://a.b/c")
    3 1 LoopStatus.finished
    ⟨"http://a.b/c".toList, false, NetError.ERR_UNEXPECTED⟩
    ⟨some 3, false,
      [Event.createRequest false ⟨"a.b".toList, "/c".toList, "GET".toList, [], []⟩,
       Event.start false "a.b".toList "http".toList]⟩
    rfl rfl (by decide) rfl).1

/-! ## Lemmas on `Start` in an arbitrary loader state -/

/-- In any loader state, a `Start` that returns has run the supplied handle at
most once: it is either still stored and not run, or run once and cleared. -/
theorem handledAtMostOnce_Start {useHttps : Bool} {env : Transport} {l : URLLoaderImpl}
    {request : URLRequest} {callback : Handle} {fuel : Nat} {l' : URLLoaderImpl}
    (hterm : Start useHttps env l request callback fuel = some l') :
    HandledAtMostOnce callback l l' := by
  have hstable := stable_handledAtMostOnce request.method (collectHeaders request.headers)
    (collectReaders request.body) callback l
  have hinit : HandledAtMostOnce callback l { l with callback_ := some callback } :=
    ⟨[], by simp, Or.inl ⟨rfl, rfl⟩⟩
  unfold Start StartInternal at hterm
  simp only at hterm
  split at hterm
  · exact Option.noConfusion hterm
  · rename_i v l1 hloop
    have hinv := stable_loop hstable hinit hloop
    simp only [Option.some.injEq] at hterm
    subst hterm
    split
    · exact hstable.2.2 _ _ hinv
    · exact hinv

/-! ## Lemmas on sequences of calls -/

theorem runHandles_append (a b : List Event) :
    runHandles (a ++ b) = runHandles a ++ runHandles b := by
  simp [runHandles, deliveries_append]

/-- Dropping the stored handle when a fresh one is supplied keeps the handles
pairwise distinct. -/
theorem nodup_supply (rh stored : List Handle) (cb : Handle) (S : List Handle)
    (h : (rh ++ stored ++ (cb :: S)).Nodup) : (rh ++ (cb :: S)).Nodup := by
  refine h.sublist ?_
  rw [List.append_assoc]
  exact List.Sublist.append (List.Sublist.refl rh) (List.sublist_append_right stored (cb :: S))

theorem fresh_of_handled {cb : Handle} {l l1 : URLLoaderImpl} {S : List Handle}
    (hh : HandledAtMostOnce cb l l1)
    (h : (runHandles l.log ++ storedHandle l ++ (cb :: S)).Nodup) :
    (runHandles l1.log ++ storedHandle l1 ++ S).Nodup := by
  have h2 := nodup_supply _ _ _ _ h
  obtain ⟨new, hnew, hcase⟩ := hh
  rcases hcase with ⟨hcb, hd⟩ | ⟨hcb, r, hd⟩
  · have h3 : runHandles l1.log = runHandles l.log := by
      rw [hnew, runHandles_append]
      simp [runHandles, hd]
    have h4 : storedHandle l1 = [cb] := by simp [storedHandle, hcb]
    rw [h3, h4]
    simpa using h2
  · have h3 : runHandles l1.log = runHandles l.log ++ [cb] := by
      rw [hnew, runHandles_append]
      simp [runHandles, hd]
    have h4 : storedHandle l1 = [] := by simp [storedHandle, hcb]
    rw [h3, h4]
    simpa using h2

theorem handledAtMostOnce_FollowRedirect (l : URLLoaderImpl) (cb : Handle) :
    HandledAtMostOnce cb l (FollowRedirect l cb) :=
  ⟨[Event.run cb (errorResponse NetError.ERR_NOT_IMPLEMENTED)], rfl,
    Or.inr ⟨rfl, _, rfl⟩⟩

theorem fresh_of_SendResponse (l : URLLoaderImpl) (r : URLResponse) (S : List Handle)
    (h : (runHandles l.log ++ storedHandle l ++ S).Nodup) :
    (runHandles (SendResponse l r).log ++ storedHandle (SendResponse l r) ++ S).Nodup := by
  cases hcb : l.callback_ with
  | none =>
    have h1 : (SendResponse l r).log = l.log := by simp [SendResponse, Callback.Run, hcb]
    have h2 : storedHandle (SendResponse l r) = storedHandle l := by
      simp [storedHandle, SendResponse, hcb]
    rw [h1, h2]
    exact h
  | some cb =>
    have h1 : (SendResponse l r).log = l.log ++ [Event.run cb r] := by
      simp [SendResponse, Callback.Run, hcb]
    have h2 : storedHandle (SendResponse l r) = [] := by simp [storedHandle, SendResponse]
    have h3 : storedHandle l = [cb] := by simp [storedHandle, hcb]
    rw [h1, h2, runHandles_append]
    rw [h3] at h
    simpa [runHandles, deliveries] using h

theorem fresh_of_perform {useHttps : Bool} {l l1 : URLLoaderImpl} {c : Call}
    {S : List Handle} (hp : perform useHttps l c = some l1)
    (h : (runHandles l.log ++ storedHandle l ++ (c.supplied ++ S)).Nodup) :
    (runHandles l1.log ++ storedHandle l1 ++ S).Nodup := by
  cases c with
  | Start env request callback fuel =>
    exact fresh_of_handled (handledAtMostOnce_Start hp) h
  | FollowRedirect callback =>
    simp only [perform, Option.some.injEq] at hp
    subst hp
    exact fresh_of_handled (handledAtMostOnce_FollowRedirect l callback) h
  | SendResponse response =>
    simp only [perform, Option.some.injEq] at hp
    subst hp
    exact fresh_of_SendResponse l response S h
  | SendError error_code =>
    simp only [perform, Option.some.injEq] at hp
    subst hp
    exact fresh_of_SendResponse l _ S h

theorem fresh_of_performAll (useHttps : Bool) (calls : List Call) :
    ∀ (l l' : URLLoaderImpl), performAll useHttps l calls = some l' →
      (runHandles l.log ++ storedHandle l ++ suppliedHandles calls).Nodup →
      (runHandles l'.log ++ storedHandle l').Nodup := by
  induction calls with
  | nil =>
    intro l l' hrun h
    simp only [performAll, Option.some.injEq] at hrun
    subst hrun
    simpa [suppliedHandles] using h
  | cons c cs ih =>
    intro l l' hrun h
    rw [performAll] at hrun
    cases hp : perform useHttps l c with
    | none =>
      rw [hp] at hrun
      exact Option.noConfusion hrun
    | some l1 =>
      rw [hp] at hrun
      exact ih l1 l' hrun (fresh_of_perform hp h)

/-- C15: double delivery is prevented. Start from a loader whose run handles
and stored handle are pairwise distinct, and perform any sequence of `Start`,
`FollowRedirect`, `SendResponse` and `SendError` calls that supply fresh
handles: in the resulting log every handle is run at most once, and a handle
still stored has not been run. A `SendResponse` or `SendError` issued when no
handle is stored adds nothing to the log and leaves `responded_` true. -/
theorem C15_no_double_delivery (useHttps : Bool) (l : URLLoaderImpl) (calls : List Call)
    (l' : URLLoaderImpl)
    (hfresh : (runHandles l.log ++ storedHandle l ++ suppliedHandles calls).Nodup)
    (hrun : performAll useHttps l calls = some l') :
    (runHandles l'.log).Nodup ∧
    (∀ h, h ∈ storedHandle l' → h ∉ runHandles l'.log) ∧
    (∀ (b : Bool) (log : List Event) (r : URLResponse),
      SendResponse ⟨none, b, log⟩ r = ⟨none, true, log⟩) ∧
    (∀ (b : Bool) (log : List Event) (e : NetError),
      SendError ⟨none, b, log⟩ e = ⟨none, true, log⟩) := by
  have hnodup := fresh_of_performAll useHttps calls l l' hrun hfresh
  rw [List.nodup_append] at hnodup
  refine ⟨hnodup.1, ?_, fun _ _ _ => rfl, fun _ _ _ => rfl⟩
  intro h hs hr
  exact hnodup.2.2 hr hs

/-- C15, on the example sequence from a fresh loader: handles `1` and `2` are
run once each, handle `3` is stored and not run. -/
theorem C15_no_double_delivery_witness :
    ∃ l', (runHandles URLLoaderImpl.new.log ++ storedHandle URLLoaderImpl.new
        ++ suppliedHandles exampleCalls).Nodup ∧
      performAll false URLLoaderImpl.new exampleCalls = some l' ∧
      runHandles l'.log = [1, 2] ∧ storedHandle l' = [3] ∧
      (runHandles l'.log).Nodup :=
  ⟨_, by decide, rfl, rfl, rfl,
    (C15_no_double_delivery false URLLoaderImpl.new exampleCalls _ (by decide) rfl).1⟩

/-! ## The redirect chain on any dispatched scheme -/

theorem hop_of_answersOn (useHttps : Bool) (env : Transport) (request : URLRequest)
    (i : Nat) (v : Locals) (l : URLLoaderImpl) (q : ParsedURL) (secure : Bool)
    (r : ClientRun) (h : AnswersOn useHttps env request i v.url q secure r) :
    hop useHttps env request.method (collectHeaders request.headers)
        (collectReaders request.body) i v l
      = (false,
          if r.status_code_ = 301 ∨ r.status_code_ = 302 then
            { v with redirect := true, url := r.redirect_location_ }
          else { v with redirect := false },
          r.calls.foldl applyCall
            { l with log := l.log ++ dispatchedAttempt useHttps request (q, secure) }) := by
  obtain ⟨hparse, hclient, hok, hrun⟩ := h
  rw [hop_of_client useHttps env _ _ _ i v l q secure hparse hclient,
    attempt_of_ok _ _ _ _ _ _ _ _ r hok hrun]
  simp [dispatchedAttempt, requestFor]

theorem loop_of_redirectChain (useHttps : Bool) (env : Transport) (request : URLRequest)
    (p : ParsedURL) (secure : Bool) (last : ClientRun) (fuel : Nat)
    (chain : List (ParsedURL × Bool × ClientRun)) :
    ∀ (i : Nat) (v : Locals) (l : URLLoaderImpl),
      RedirectChain useHttps env request i v.url chain p secure last →
      ∃ v', v'.error_code = v.error_code ∧
        loop useHttps env request.method (collectHeaders request.headers)
            (collectReaders request.body) (chain.length + 1 + fuel) i v l
          = some (v', last.calls.foldl applyCall
              { l with log := l.log
                  ++ ((hopsOf chain p secure).map
                        (dispatchedAttempt useHttps request)).flatten }) := by
  induction chain with
  | nil =>
    intro i v l hchain
    obtain ⟨hans, h301, h302⟩ := hchain
    have hfuel : ([] : List (ParsedURL × Bool × ClientRun)).length + 1 + fuel = fuel + 1 := by
      simp; omega
    have hstat : ¬ (last.status_code_ = 301 ∨ last.status_code_ = 302) := by
      rintro (h | h)
      · exact h301 h
      · exact h302 h
    refine ⟨{ v with redirect := false }, rfl, ?_⟩
    rw [hfuel, loop, hop_of_answersOn useHttps env request i v l p secure last hans,
      if_neg hstat]
    simp [hopsOf]
  | cons qr rest ih =>
    intro i v l hchain
    obtain ⟨q, s, r⟩ := qr
    obtain ⟨hans, hstat, hcalls, hrest⟩ := hchain
    have hfuel : ((q, s, r) :: rest).length + 1 + fuel = (rest.length + 1 + fuel) + 1 := by
      simp; omega
    obtain ⟨v', hv', hloop⟩ := ih (i + 1)
      { v with redirect := true, url := r.redirect_location_ }
      { l with log := l.log ++ dispatchedAttempt useHttps request (q, s) } hrest
    refine ⟨v', hv', ?_⟩
    rw [hfuel, loop, hop_of_answersOn useHttps env request i v l q s r hans, if_pos hstat,
      hcalls]
    simp only [List.foldl_nil, if_true]
    rw [hloop]
    simp [hopsOf, List.append_assoc]

theorem startCalls_dispatchedAttempts (useHttps : Bool) (request : URLRequest)
    (xs : List (ParsedURL × Bool)) :
    startCalls ((xs.map (dispatchedAttempt useHttps request)).flatten)
      = xs.map fun x =>
          (x.2, (dispatchTarget useHttps x.1).host, (dispatchTarget useHttps x.1).port) := by
  induction xs with
  | nil => rfl
  | cons x xs ih =>
    rw [List.map_cons, List.flatten_cons, startCalls_append, ih]
    rfl

theorem dispatchTarget_of_http (useHttps : Bool) (q : ParsedURL) (hproto : q.proto = http)
    (hhost : q.host ≠ sentinelHost) :
    dispatchTarget useHttps q = q ∧ clientOf useHttps q = some false := by
  have hne : q.proto ≠ https := hproto ▸ http_ne_https
  refine ⟨?_, ?_⟩
  · unfold dispatchTarget
    rw [rewriteHost_of_other q hhost, forceHttp_of_not_https q hne]
    simp
  · unfold clientOf
    rw [if_neg hne, if_pos hproto]

theorem dispatchTarget_of_sentinel (useHttps : Bool) (q : ParsedURL)
    (hhost : q.host = sentinelHost) :
    dispatchTarget useHttps q = ⟨http, rewrittenHost, port80, q.path⟩ ∧
    clientOf useHttps (dispatchTarget useHttps q) = some false := by
  have h1 : dispatchTarget useHttps q = ⟨http, rewrittenHost, port80, q.path⟩ := by
    unfold dispatchTarget
    rw [rewriteHost_of_sentinel q hhost, forceHttp_of_not_https _ http_ne_https]
    simp
  refine ⟨h1, ?_⟩
  rw [h1]
  unfold clientOf
  rw [if_neg http_ne_https, if_pos rfl]

/-- C8, amended: let the request URL and the successive reported locations
parse to URLs the loop dispatches, let every attempt build its request, let
the first `k` attempts answer 301 or 302 without delivering a response
themselves and the next one answer another status. Then `Start` on an idle
loader terminates, it invokes the adapter exactly `k + 1` times, each
invocation on the dispatch target of the URL of its hop - for a location that
parses to an http URL this is the plaintext client on the parsed host, port and
path, except that the host `tq.mojoapps.io` is attempted on `tq-server`, port
`80`, with the parsed path - and the one response delivered is that of the last
attempt (the `UNEXPECTED` fallback when it hands over none). -/
theorem C8_redirect_chain (useHttps : Bool) (env : Transport) (l : URLLoaderImpl)
    (request : URLRequest) (callback : Handle)
    (chain : List (ParsedURL × Bool × ClientRun)) (p : ParsedURL) (secure : Bool)
    (last : ClientRun) (fuel : Nat) (hidle : l.responded_ = false)
    (hchain : RedirectChain useHttps env request 0 request.url chain p secure last) :
    Start useHttps env l request callback (chain.length + 1 + fuel)
      = some ⟨none, true,
          l.log ++ ((hopsOf chain p secure).map (dispatchedAttempt useHttps request)).flatten
            ++ [Event.run callback (finalResponse last)]⟩ ∧
    startCalls ((hopsOf chain p secure).map (dispatchedAttempt useHttps request)).flatten
      = (hopsOf chain p secure).map
          (fun x => (x.2, (dispatchTarget useHttps x.1).host,
            (dispatchTarget useHttps x.1).port)) ∧
    (startCalls
        ((hopsOf chain p secure).map (dispatchedAttempt useHttps request)).flatten).length
      = chain.length + 1 ∧
    (∀ q : ParsedURL, q.proto = http → q.host ≠ sentinelHost →
      dispatchTarget useHttps q = q ∧ clientOf useHttps q = some false) ∧
    (∀ q : ParsedURL, q.host = sentinelHost →
      dispatchTarget useHttps q = ⟨http, rewrittenHost, port80, q.path⟩ ∧
      clientOf useHttps (dispatchTarget useHttps q) = some false) := by
  have hstarts := startCalls_dispatchedAttempts useHttps request (hopsOf chain p secure)
  refine ⟨?_, hstarts, by rw [hstarts]; simp [hopsOf],
    fun q h1 h2 => dispatchTarget_of_http useHttps q h1 h2,
    fun q h => dispatchTarget_of_sentinel useHttps q h⟩
  obtain ⟨v', hv', hloop⟩ := loop_of_redirectChain useHttps env request p secure last fuel
    chain 0
    { url := request.url, redirect := false, error_code := NetError.ERR_UNEXPECTED }
    { l with callback_ := some callback } hchain
  unfold Start StartInternal
  simp only
  rw [hloop]
  simp only
  unfold finalResponse
  cases hc : last.calls with
  | nil =>
    simp only [List.foldl_nil, hidle, if_true, hv']
    rfl
  | cons c cs =>
    rw [foldl_applyCall_cons]
    simp [SendResponse, Callback.Run]

/-- C8 amended, for `k = 1`, on an http request and on an https request in a
build with and in a build without secure-transport support: the first attempt answers 301 with the
location `http://d.e:81/f`, the attempt on that location answers 200 and
delivers a response; the adapter is invoked exactly twice, the second time on
`d.e`, `81`, `/f`, and the delivered response is the one of the second attempt. -/
theorem C8_redirect_chain_witness :
    Start false (redirectOnce "http://d.e:81/f".toList) URLLoaderImpl.new
        (getRequest "http://a.b/c") 3 2
      = some ⟨none, true,
          [Event.createRequest false ⟨"a.b".toList, "/c".toList, "GET".toList, [], []⟩,
           Event.start false "a.b".toList "http".toList,
           Event.createRequest false ⟨"d.e".toList, "/f".toList, "GET".toList, [], []⟩,
           Event.start false "d.e".toList "81".toList,
           Event.run 3 ⟨none, some 7⟩]⟩ ∧
    Start true (redirectOnce "http://d.e:81/f".toList) URLLoaderImpl.new
        (getRequest "https://a.b/c") 3 2
      = some ⟨none, true,
          [Event.createRequest true ⟨"a.b".toList, "/c".toList, "GET".toList, [], []⟩,
           Event.start true "a.b".toList "https".toList,
           Event.createRequest false ⟨"d.e".toList, "/f".toList, "GET".toList, [], []⟩,
           Event.start false "d.e".toList "81".toList,
           Event.run 3 ⟨none, some 7⟩]⟩ ∧
    Start false (redirectOnce "http://d.e:81/f".toList) URLLoaderImpl.new
        (getRequest "https://a.b/c") 3 2
      = some ⟨none, true,
          [Event.createRequest false ⟨"a.b".toList, "/c".toList, "GET".toList, [], []⟩,
           Event.start false "a.b".toList "80".toList,
           Event.createRequest false ⟨"d.e".toList, "/f".toList, "GET".toList, [], []⟩,
           Event.start false "d.e".toList "81".toList,
           Event.run 3 ⟨none, some 7⟩]⟩ :=
  ⟨(C8_redirect_chain false (redirectOnce "http://d.e:81/f".toList) URLLoaderImpl.new
      (getRequest "http://a.b/c") 3
      [(⟨http, "a.b".toList, http, "/c".toList⟩, false, ⟨[], 301, "http://d.e:81/f".toList⟩)]
      ⟨http, "d.e".toList, "81".toList, "/f".toList⟩ false
      ⟨[LoaderCall.SendResponse ⟨none, some 7⟩], 200, []⟩ 0 rfl
      ⟨⟨by decide, by decide, rfl, rfl⟩, Or.inl rfl, rfl,
        ⟨by decide, by decide, rfl, rfl⟩, by decide, by decide⟩).1,
    (C8_redirect_chain true (redirectOnce "http://d.e:81/f".toList) URLLoaderImpl.new
      (getRequest "https://a.b/c") 3
      [(⟨https, "a.b".toList, https, "/c".toList⟩, true, ⟨[], 301, "http://d.e:81/f".toList⟩)]
      ⟨http, "d.e".toList, "81".toList, "/f".toList⟩ false
      ⟨[LoaderCall.SendResponse ⟨none, some 7⟩], 200, []⟩ 0 rfl
      ⟨⟨by decide, by decide, rfl, rfl⟩, Or.inl rfl, rfl,
        ⟨by decide, by decide, rfl, rfl⟩, by decide, by decide⟩).1,
    (C8_redirect_chain false (redirectOnce "http://d.e:81/f".toList) URLLoaderImpl.new
      (getRequest "https://a.b/c") 3
      [(⟨https, "a.b".toList, https, "/c".toList⟩, false, ⟨[], 301, "http://d.e:81/f".toList⟩)]
      ⟨http, "d.e".toList, "81".toList, "/f".toList⟩ false
      ⟨[LoaderCall.SendResponse ⟨none, some 7⟩], 200, []⟩ 0 rfl
      ⟨⟨by decide, by decide, rfl, rfl⟩, Or.inl rfl, rfl,
        ⟨by decide, by decide, rfl, rfl⟩, by decide, by decide⟩).1⟩

/-- C17: if `CreateRequest` fails on a hop, the loop is left on that hop, in
every loader state: the hop logs the failed `CreateRequest` and no `Start` of
the adapter, the loop ends there by `break` with `error_code` set to
`INVALID_ARGUMENT`, and `Start` returns having made no further adapter
invocation. When moreover the loader was idle and nothing has been delivered
so far, the one response delivered by `Start` is the error `INVALID_ARGUMENT`.
The hop is the `k`-th one, reached with the loop still running. -/
theorem C17_build_failure_aborts (useHttps : Bool) (env : Transport) (l : URLLoaderImpl)
    (request : URLRequest) (callback : Handle) (k fuel : Nat) (vk : Locals)
    (lk : URLLoaderImpl) (p : ParsedURL) (secure : Bool)
    (hrun : loopAfter useHttps env request.method (collectHeaders request.headers)
      (collectReaders request.body) k 0
      { url := request.url, redirect := false, error_code := NetError.ERR_UNEXPECTED }
      { l with callback_ := some callback } = (LoopStatus.running, vk, lk))
    (hparse : ParseURL vk.url = some p)
    (hclient : clientOf useHttps (dispatchTarget useHttps p) = some secure)
    (hfail : (env k secure).CreateRequest
      (requestFor request (dispatchTarget useHttps p)) = false) :
    hop useHttps env request.method (collectHeaders request.headers)
        (collectReaders request.body) k vk lk
      = (true, (⟨vk.url, false, NetError.ERR_INVALID_ARGUMENT⟩ : Locals),
          ({ lk with log := lk.log ++
            [Event.createRequest secure (requestFor request (dispatchTarget useHttps p))] }
            : URLLoaderImpl)) ∧
    loopAfter useHttps env request.method (collectHeaders request.headers)
        (collectReaders request.body) (k + (fuel + 1)) 0
        { url := request.url, redirect := false, error_code := NetError.ERR_UNEXPECTED }
        { l with callback_ := some callback }
      = (LoopStatus.broke, (⟨vk.url, false, NetError.ERR_INVALID_ARGUMENT⟩ : Locals),
          ({ lk with log := lk.log ++
            [Event.createRequest secure (requestFor request (dispatchTarget useHttps p))] }
            : URLLoaderImpl)) ∧
    (∃ l', Start useHttps env l request callback (k + (fuel + 1)) = some l' ∧
      adapterCalls l'.log = adapterCalls lk.log ++
        [Event.createRequest secure (requestFor request (dispatchTarget useHttps p))] ∧
      startCalls l'.log = startCalls lk.log) ∧
    (l.responded_ = false → lk.responded_ = false →
      Start useHttps env l request callback (k + (fuel + 1))
        = some ⟨none, true,
            lk.log ++
              [Event.createRequest secure (requestFor request (dispatchTarget useHttps p)),
               Event.run callback (errorResponse NetError.ERR_INVALID_ARGUMENT)]⟩ ∧
      deliveries (lk.log ++
          [Event.createRequest secure (requestFor request (dispatchTarget useHttps p)),
           Event.run callback (errorResponse NetError.ERR_INVALID_ARGUMENT)])
        = deliveries l.log ++ [(callback, errorResponse NetError.ERR_INVALID_ARGUMENT)]) := by
  have hhop : hop useHttps env request.method (collectHeaders request.headers)
        (collectReaders request.body) k vk lk
      = (true, (⟨vk.url, false, NetError.ERR_INVALID_ARGUMENT⟩ : Locals),
          ({ lk with log := lk.log ++
            [Event.createRequest secure (requestFor request (dispatchTarget useHttps p))] }
            : URLLoaderImpl)) := by
    rw [hop_of_client useHttps env _ _ _ k vk lk p secure hparse hclient,
      attempt_of_fail _ _ _ _ _ _ _ _ hfail]
    rfl
  have hexit : loopAfter useHttps env request.method (collectHeaders request.headers)
        (collectReaders request.body) (k + (fuel + 1)) 0
        { url := request.url, redirect := false, error_code := NetError.ERR_UNEXPECTED }
        { l with callback_ := some callback }
      = (LoopStatus.broke, (⟨vk.url, false, NetError.ERR_INVALID_ARGUMENT⟩ : Locals),
          ({ lk with log := lk.log ++
            [Event.createRequest secure (requestFor request (dispatchTarget useHttps p))] }
            : URLLoaderImpl)) := by
    rw [loopAfter_add useHttps env _ _ _ k (fuel + 1) 0 _ vk _ lk hrun, loopAfter]
    simp only [Nat.zero_add]
    rw [hhop]
  have hstart := Start_of_loopAfter hexit (fun h => LoopStatus.noConfusion h)
  refine ⟨hhop, hexit, ⟨_, hstart, ?_, ?_⟩, ?_⟩
  · split
    · rw [SendError, adapterCalls_SendResponse, adapterCalls_append]
      simp [adapterCalls]
    · rw [adapterCalls_append]
      simp [adapterCalls]
  · split
    · rw [SendError, startCalls_SendResponse, startCalls_append]
      simp [startCalls]
    · rw [startCalls_append]
      simp [startCalls]
  · intro hidle hnone
    obtain ⟨hcb, hdel⟩ := pending_of_loopAfter hidle hrun hnone
    refine ⟨?_, ?_⟩
    · rw [hstart]
      simp only [hnone, if_true]
      rw [SendError_of_stored _ callback _ (by exact hcb)]
      simp
    · rw [deliveries_append, hdel]
      rfl

/-- C17, on a transport whose clients fail to build: the first hop of a `Start`
on `http://a.b/c` logs the `CreateRequest` only; on an idle loader
`INVALID_ARGUMENT` is delivered, and on a loader that has already responded
the loop is left in the same way. -/
theorem C17_build_failure_aborts_witness :
    Start false failingBuild URLLoaderImpl.new (getRequest "http://a.b/c") 3 1
      = some ⟨none, true,
          [Event.createRequest false ⟨"a.b".toList, "/c".toList, "GET".toList, [], []⟩,
           Event.run 3 (errorResponse NetError.ERR_INVALID_ARGUMENT)]⟩ ∧
    loopAfter false failingBuild (getRequest "http://a.b/c").method
        (collectHeaders (getRequest "http://a.b/c").headers)
        (collectReaders (getRequest "http://a.b/c").body) 1 0
        ⟨"http://a.b/c".toList, false, NetError.ERR_UNEXPECTED⟩ ⟨some 3, true, []⟩
      = (LoopStatus.broke, ⟨"http://a.b/c".toList, false, NetError.ERR_INVALID_ARGUMENT⟩,
          ⟨some 3, true,
            [Event.createRequest false
              ⟨"a.b".toList, "/c".toList, "GET".toList, [], []⟩]⟩) :=
  ⟨((C17_build_failure_aborts false failingBuild URLLoaderImpl.new
      (getRequest "http://a.b/c") 3 0 0 _ _ ⟨http, "a.b".toList, http, "/c".toList⟩ false
      rfl (by decide) (by decide) rfl).2.2.2 rfl rfl).1,
    (C17_build_failure_aborts false failingBuild ⟨none, true, []⟩
      (getRequest "http://a.b/c") 3 0 0 _ _ ⟨http, "a.b".toList, http, "/c".toList⟩ false
      rfl (by decide) (by decide) rfl).2.1⟩

/-! ## Transports that hand no response to the loader -/

theorem quiet_attempt (c : HTTPClient) (secure : Bool) (t : ParsedURL) (method : Str)
    (hdrs : List (Str × Str)) (rdrs : List UploadElementReader) (v : Locals)
    (l : URLLoaderImpl)
    (hq : (c.Start ⟨t.host, t.path, method, hdrs, rdrs⟩ t.host t.port).calls = []) :
    deliveries (attempt c secure t method hdrs rdrs v l).2.2.log = deliveries l.log ∧
    (attempt c secure t method hdrs rdrs v l).2.2.callback_ = l.callback_ ∧
    (attempt c secure t method hdrs rdrs v l).2.2.responded_ = l.responded_ := by
  unfold attempt
  simp only
  split
  · refine ⟨?_, rfl, rfl⟩
    show deliveries (l.log ++ _) = _
    rw [deliveries_append]
    simp [deliveries]
  · rw [hq]
    split <;>
    · refine ⟨?_, rfl, rfl⟩
      show deliveries (l.log ++ _ ++ _) = _
      rw [deliveries_append, deliveries_append]
      simp [deliveries]

theorem quiet_hop (useHttps : Bool) (env : Transport) (hq : Quiet env) (method : Str)
    (hdrs : List (Str × Str)) (rdrs : List UploadElementReader) (i : Nat) (v : Locals)
    (l : URLLoaderImpl) :
    deliveries (hop useHttps env method hdrs rdrs i v l).2.2.log = deliveries l.log ∧
    (hop useHttps env method hdrs rdrs i v l).2.2.callback_ = l.callback_ ∧
    (hop useHttps env method hdrs rdrs i v l).2.2.responded_ = l.responded_ := by
  unfold hop
  split
  · exact ⟨rfl, rfl, rfl⟩
  · simp only
    repeat' split
    all_goals first
      | exact ⟨rfl, rfl, rfl⟩
      | exact quiet_attempt _ _ _ _ _ _ _ _ (hq _ _ _ _ _)

/-- Under a transport that hands no response to the loader, the loop delivers
nothing and leaves the stored handle and `responded_` as they were, however
many iterations it makes. -/
theorem quiet_loopAfter (useHttps : Bool) (env : Transport) (hq : Quiet env) (method : Str)
    (hdrs : List (Str × Str)) (rdrs : List UploadElementReader) (n : Nat) :
    ∀ (i : Nat) (v : Locals) (l : URLLoaderImpl),
      deliveries (loopAfter useHttps env method hdrs rdrs n i v l).2.2.log
        = deliveries l.log ∧
      (loopAfter useHttps env method hdrs rdrs n i v l).2.2.callback_ = l.callback_ ∧
      (loopAfter useHttps env method hdrs rdrs n i v l).2.2.responded_ = l.responded_ := by
  induction n with
  | zero =>
    intro i v l
    exact ⟨rfl, rfl, rfl⟩
  | succ n ih =>
    intro i v l
    have hhop := quiet_hop useHttps env hq method hdrs rdrs i v l
    rw [loopAfter]
    rcases hres : hop useHttps env method hdrs rdrs i v l with ⟨brk, v1, l1⟩
    rw [hres] at hhop
    cases brk with
    | true => exact hhop
    | false =>
      simp only
      split
      · obtain ⟨h1, h2, h3⟩ := ih (i + 1) v1 l1
        exact ⟨h1.trans hhop.1, h2.trans hhop.2.1, h3.trans hhop.2.2⟩
      · exact hhop

theorem stable_responded (method : Str) (hdrs : List (Str × Str))
    (rdrs : List UploadElementReader) :
    Stable method hdrs rdrs (fun l => l.responded_ = true) :=
  ⟨fun _ _ _ _ h => h, fun _ _ _ _ h => h, fun _ _ _ => rfl⟩

theorem quiet_alwaysRedirect (loc : Str) : Quiet (alwaysRedirect loc) :=
  fun _ _ _ _ _ => rfl

theorem quiet_okTransport : Quiet okTransport :=
  fun _ _ _ _ _ => rfl

/-- C14, amended: let the redirect loop of a `Start` be left within the fuel.
Then `Start` returns, and it has invoked the supplied handle at most once in
every loader state and exactly once when the loader was idle. On a loader that
has already responded `Start` adds nothing of its own to what the loop did (its
fallback is skipped), so the handle is run only by a response the transport
hands to the loader; under a transport that hands over none, nothing is
delivered. On an idle loader, when the loop is left by a `break` (malformed
URL, unsupported scheme, request-build failure) with nothing delivered by the
adapter, what the handle receives is the error `INVALID_ARGUMENT`, without a
payload. -/
theorem C14_Start_callback_invocations (useHttps : Bool) (env : Transport)
    (l : URLLoaderImpl) (request : URLRequest) (callback : Handle) (fuel : Nat)
    (s : LoopStatus) (v1 : Locals) (l1 : URLLoaderImpl)
    (hexit : loopAfter useHttps env request.method (collectHeaders request.headers)
      (collectReaders request.body) fuel 0
      { url := request.url, redirect := false, error_code := NetError.ERR_UNEXPECTED }
      { l with callback_ := some callback } = (s, v1, l1))
    (hs : s ≠ LoopStatus.running) :
    ∃ l', Start useHttps env l request callback fuel = some l' ∧
      (∃ new, l'.log = l.log ++ new ∧
        (deliveries new = [] ∨ ∃ r, deliveries new = [(callback, r)])) ∧
      (l.responded_ = false →
        ∃ new r, l'.log = l.log ++ new ∧ deliveries new = [(callback, r)]) ∧
      (l.responded_ = true →
        l' = l1 ∧ (Quiet env → deliveries l'.log = deliveries l.log)) ∧
      (l.responded_ = false → s = LoopStatus.broke → l1.responded_ = false →
        l' = ⟨none, true,
          l1.log ++ [Event.run callback ⟨some NetError.ERR_INVALID_ARGUMENT, none⟩]⟩ ∧
        deliveries l'.log
          = deliveries l.log ++
            [(callback, ⟨some NetError.ERR_INVALID_ARGUMENT, none⟩)]) := by
  have hterm := Start_of_loopAfter hexit hs
  refine ⟨_, hterm, ?_, ?_, ?_, ?_⟩
  · obtain ⟨new, hnew, hcase⟩ := handledAtMostOnce_Start hterm
    refine ⟨new, hnew, ?_⟩
    rcases hcase with ⟨-, hd⟩ | ⟨-, r, hd⟩
    · exact Or.inl hd
    · exact Or.inr ⟨r, hd⟩
  · intro hidle
    have hinit : DeliveredAtMostOnce callback l { l with callback_ := some callback } :=
      deliveredAtMostOnce_refl callback l _ rfl rfl hidle
    have hinv := stable_loopAfter
      (stable_deliveredAtMostOnce request.method (collectHeaders request.headers)
        (collectReaders request.body) callback l) useHttps env fuel 0
      { url := request.url, redirect := false, error_code := NetError.ERR_UNEXPECTED }
      _ hinit
    rw [hexit] at hinv
    by_cases hresp : l1.responded_ = false
    · rw [if_pos hresp]
      obtain ⟨new, hnew, hcase⟩ := deliveredAtMostOnce_send hinv (errorResponse v1.error_code)
      rcases hcase with ⟨-, hr, -⟩ | ⟨-, -, r, hd⟩
      · simp [SendResponse] at hr
      · exact ⟨new, r, hnew, hd⟩
    · rw [if_neg hresp]
      obtain ⟨new, hnew, hcase⟩ := hinv
      rcases hcase with ⟨-, hr, -⟩ | ⟨-, -, r, hd⟩
      · exact absurd hr hresp
      · exact ⟨new, r, hnew, hd⟩
  · intro hresp
    have hkeep := stable_loopAfter
      (stable_responded request.method (collectHeaders request.headers)
        (collectReaders request.body)) useHttps env fuel 0
      { url := request.url, redirect := false, error_code := NetError.ERR_UNEXPECTED }
      { l with callback_ := some callback } hresp
    rw [hexit] at hkeep
    have hl1 : l1.responded_ = true := hkeep
    have hne : ¬ l1.responded_ = false := by
      rw [hl1]
      exact Bool.noConfusion
    rw [if_neg hne]
    refine ⟨rfl, fun hq => ?_⟩
    have hquiet := (quiet_loopAfter useHttps env hq request.method
      (collectHeaders request.headers) (collectReaders request.body) fuel 0
      { url := request.url, redirect := false, error_code := NetError.ERR_UNEXPECTED }
      { l with callback_ := some callback }).1
    rw [hexit] at hquiet
    exact hquiet
  · intro hidle hbroke hnone
    subst hbroke
    obtain ⟨hcb, hdel⟩ := pending_of_loopAfter hidle hexit hnone
    obtain ⟨hcode, -⟩ := loopAfter_error_code useHttps env _ _ _ fuel 0 _ v1 _ l1 _ hexit
    rw [if_pos hnone, SendError_of_stored _ callback _ hcb, hcode rfl]
    refine ⟨rfl, ?_⟩
    show deliveries (l1.log ++ _) = _
    rw [deliveries_append, hdel]
    rfl

/-- C14 amended, on the malformed URL `noscheme`: on an idle loader the handle
`3` is run once, with the error `INVALID_ARGUMENT`; on a loader that has
already responded `Start` returns the state the loop left. -/
theorem C14_Start_callback_invocations_witness :
    (∃ l', Start false okTransport URLLoaderImpl.new (getRequest "noscheme") 3 1 = some l' ∧
      l' = ⟨none, true, [Event.run 3 ⟨some NetError.ERR_INVALID_ARGUMENT, none⟩]⟩) ∧
    (∃ l', Start false okTransport ⟨none, true, []⟩ (getRequest "noscheme") 3 1 = some l' ∧
      l' = ⟨some 3, true, []⟩) :=
  ⟨(C14_Start_callback_invocations false okTransport URLLoaderImpl.new
      (getRequest "noscheme") 3 1 LoopStatus.broke
      ⟨"noscheme".toList, false, NetError.ERR_INVALID_ARGUMENT⟩ ⟨some 3, false, []⟩
      rfl (by decide)).elim
      (fun l' h => ⟨l', h.1, (h.2.2.2.2 rfl rfl rfl).1⟩),
    (C14_Start_callback_invocations false okTransport ⟨none, true, []⟩
      (getRequest "noscheme") 3 1 LoopStatus.broke
      ⟨"noscheme".toList, false, NetError.ERR_INVALID_ARGUMENT⟩ ⟨some 3, true, []⟩
      rfl (by decide)).elim
      (fun l' h => ⟨l', h.1, (h.2.2.2.1 rfl).1⟩)⟩

/-! ## A transport that always redirects -/

theorem clientOf_of_http (useHttps : Bool) (q : ParsedURL) (hproto : q.proto = http) :
    clientOf useHttps (dispatchTarget useHttps q) = some false := by
  by_cases hhost : q.host = sentinelHost
  · exact (dispatchTarget_of_sentinel useHttps q hhost).2
  · obtain ⟨h1, h2⟩ := dispatchTarget_of_http useHttps q hproto hhost
    rw [h1]
    exact h2

theorem startCalls_dispatchedAttempt (useHttps : Bool) (request : URLRequest)
    (x : ParsedURL × Bool) :
    (startCalls (dispatchedAttempt useHttps request x)).length = 1 := rfl

/-- Under a transport that always redirects, from a hop whose URL is
dispatched the loop is still running after any number `n` of iterations, and
has made `n` `Start` invocations of the adapter. -/
theorem loopAfter_of_alwaysRedirects (useHttps : Bool) (env : Transport)
    (request : URLRequest) (henv : AlwaysRedirects env) (n : Nat) :
    ∀ (i : Nat) (v : Locals) (l : URLLoaderImpl),
      (∃ q secure, ParseURL v.url = some q ∧
        clientOf useHttps (dispatchTarget useHttps q) = some secure) →
      ∃ v' l', loopAfter useHttps env request.method (collectHeaders request.headers)
          (collectReaders request.body) n i v l = (LoopStatus.running, v', l') ∧
        (startCalls l'.log).length = (startCalls l.log).length + n := by
  induction n with
  | zero =>
    intro i v l _
    exact ⟨v, l, rfl, rfl⟩
  | succ n ih =>
    intro i v l hq
    obtain ⟨q, secure, hparse, hclient⟩ := hq
    obtain ⟨hok, hstat, p', hloc, hproto'⟩ := henv i secure
      (requestFor request (dispatchTarget useHttps q))
      (dispatchTarget useHttps q).host (dispatchTarget useHttps q).port
    have hans : AnswersOn useHttps env request i v.url q secure
        ((env i secure).Start (requestFor request (dispatchTarget useHttps q))
          (dispatchTarget useHttps q).host (dispatchTarget useHttps q).port) :=
      ⟨hparse, hclient, hok, rfl⟩
    have hhop := hop_of_answersOn useHttps env request i v l q secure _ hans
    rw [if_pos hstat] at hhop
    obtain ⟨v', l', hrun, hlen⟩ := ih (i + 1)
      { v with redirect := true,
               url := ((env i secure).Start (requestFor request (dispatchTarget useHttps q))
                 (dispatchTarget useHttps q).host
                 (dispatchTarget useHttps q).port).redirect_location_ }
      (((env i secure).Start (requestFor request (dispatchTarget useHttps q))
          (dispatchTarget useHttps q).host (dispatchTarget useHttps q).port).calls.foldl
        applyCall { l with log := l.log ++ dispatchedAttempt useHttps request (q, secure) })
      ⟨p', false, hloc, clientOf_of_http useHttps p' hproto'⟩
    refine ⟨v', l', ?_, ?_⟩
    · rw [loopAfter, hhop]
      simp only [if_true]
      exact hrun
    · rw [hlen, startCalls_foldl_applyCall]
      simp only [startCalls_append, List.length_append, startCalls_dispatchedAttempt]
      omega

/-- For a request whose URL is dispatched, under a transport that always
redirects, `Start` has not returned after any number of iterations. -/
theorem Start_none_of_alwaysRedirects (useHttps : Bool) (env : Transport)
    (l : URLLoaderImpl) (request : URLRequest) (callback : Handle) (p : ParsedURL)
    (secure : Bool) (hparse : ParseURL request.url = some p)
    (hclient : clientOf useHttps (dispatchTarget useHttps p) = some secure)
    (henv : AlwaysRedirects env) (fuel : Nat) :
    Start useHttps env l request callback fuel = none := by
  obtain ⟨v', l', h1, -⟩ := loopAfter_of_alwaysRedirects useHttps env request henv fuel 0
    { url := request.url, redirect := false, error_code := NetError.ERR_UNEXPECTED }
    { l with callback_ := some callback } ⟨p, secure, hparse, hclient⟩
  unfold Start StartInternal
  simp only
  rw [loop_none_of_running h1]

theorem alwaysRedirects_example : AlwaysRedirects (alwaysRedirect "http://a.b/c".toList) := by
  intro i secure req host port
  refine ⟨rfl, Or.inl rfl, ⟨http, "a.b".toList, http, "/c".toList⟩, ?_, rfl⟩
  show ParseURL "http://a.b/c".toList = _
  decide

theorem alwaysRedirects_delivering :
    AlwaysRedirects (redirectAndDeliver "http://a.b/c".toList) := by
  intro i secure req host port
  refine ⟨rfl, Or.inl rfl, ⟨http, "a.b".toList, http, "/c".toList⟩, ?_, rfl⟩
  show ParseURL "http://a.b/c".toList = _
  decide

/-- C16, refuted as to "no response is delivered": a transport answers every
attempt with 301 and a location that parses to an http URL, so `Start` never
returns, yet its first attempt hands a response to the loader, and the
caller's handle `3` is run with it while the loop goes on. -/
theorem C16_counterexample :
    AlwaysRedirects (redirectAndDeliver "http://a.b/c".toList) ∧
    (∀ fuel, Start false (redirectAndDeliver "http://a.b/c".toList) URLLoaderImpl.new
      (getRequest "http://a.b/c") 3 fuel = none) ∧
    deliveries (loopAfter false (redirectAndDeliver "http://a.b/c".toList)
        (getRequest "http://a.b/c").method
        (collectHeaders (getRequest "http://a.b/c").headers)
        (collectReaders (getRequest "http://a.b/c").body) 2 0
        ⟨"http://a.b/c".toList, false, NetError.ERR_UNEXPECTED⟩
        ⟨some 3, false, []⟩).2.2.log
      = [(3, ⟨none, some 7⟩)] :=
  ⟨alwaysRedirects_delivering,
    fun fuel => Start_none_of_alwaysRedirects false _ _ _ 3
      ⟨http, "a.b".toList, http, "/c".toList⟩ false (by decide) (by decide)
      alwaysRedirects_delivering fuel,
    by decide⟩

/-- C16, amended: the redirect loop has no bound on its hops. For a request
whose URL the loop dispatches and a transport whose every attempt answers 301
or 302 with a location that parses to an http URL, after any number `n` of
iterations the loop is still running and has made `n` `Start` invocations of
the adapter, so more than any given number of them; `Start` never returns,
whatever the fuel, so the loader never reaches its own delivery; and when the
transport hands no response to the loader, no response is delivered at all,
the supplied handle staying stored. -/
theorem C16_redirect_loop_unbounded (useHttps : Bool) (env : Transport)
    (l : URLLoaderImpl) (request : URLRequest) (callback : Handle) (p : ParsedURL)
    (secure : Bool) (hparse : ParseURL request.url = some p)
    (hclient : clientOf useHttps (dispatchTarget useHttps p) = some secure)
    (henv : AlwaysRedirects env) :
    (∀ n, ∃ v' l', loopAfter useHttps env request.method (collectHeaders request.headers)
          (collectReaders request.body) n 0
          { url := request.url, redirect := false, error_code := NetError.ERR_UNEXPECTED }
          { l with callback_ := some callback } = (LoopStatus.running, v', l') ∧
        (startCalls l'.log).length = (startCalls l.log).length + n) ∧
    (∀ n, ∃ k v' l', loopAfter useHttps env request.method (collectHeaders request.headers)
          (collectReaders request.body) k 0
          { url := request.url, redirect := false, error_code := NetError.ERR_UNEXPECTED }
          { l with callback_ := some callback } = (LoopStatus.running, v', l') ∧
        (startCalls l.log).length + n < (startCalls l'.log).length) ∧
    (∀ fuel, Start useHttps env l request callback fuel = none) ∧
    (Quiet env → ∀ n,
      deliveries (loopAfter useHttps env request.method (collectHeaders request.headers)
          (collectReaders request.body) n 0
          { url := request.url, redirect := false, error_code := NetError.ERR_UNEXPECTED }
          { l with callback_ := some callback }).2.2.log = deliveries l.log ∧
      (loopAfter useHttps env request.method (collectHeaders request.headers)
          (collectReaders request.body) n 0
          { url := request.url, redirect := false, error_code := NetError.ERR_UNEXPECTED }
          { l with callback_ := some callback }).2.2.callback_ = some callback) := by
  have hrun := fun n => loopAfter_of_alwaysRedirects useHttps env request henv n 0
    { url := request.url, redirect := false, error_code := NetError.ERR_UNEXPECTED }
    { l with callback_ := some callback } ⟨p, secure, hparse, hclient⟩
  refine ⟨hrun, ?_, ?_, ?_⟩
  · intro n
    obtain ⟨v', l', h1, h2⟩ := hrun (n + 1)
    refine ⟨n + 1, v', l', h1, ?_⟩
    have h3 : (startCalls ({ l with callback_ := some callback } : URLLoaderImpl).log).length
        = (startCalls l.log).length := rfl
    omega
  · exact Start_none_of_alwaysRedirects useHttps env l request callback p secure hparse
      hclient henv
  · intro hq n
    obtain ⟨h1, h2, -⟩ := quiet_loopAfter useHttps env hq request.method
      (collectHeaders request.headers) (collectReaders request.body) n 0
      { url := request.url, redirect := false, error_code := NetError.ERR_UNEXPECTED }
      { l with callback_ := some callback }
    exact ⟨h1, h2⟩

/-- C16 amended, on a transport that redirects every attempt to `http://a.b/c`
and hands no response to the loader: after five iterations the loop is still
running with five `Start` invocations and no delivery, and `Start` with fuel
100 has not returned. -/
theorem C16_redirect_loop_unbounded_witness :
    AlwaysRedirects (alwaysRedirect "http://a.b/c".toList) ∧
    Quiet (alwaysRedirect "http://a.b/c".toList) ∧
    ParseURL (getRequest "http://a.b/c").url = some ⟨http, "a.b".toList, http, "/c".toList⟩ ∧
    (∃ v' l', loopAfter false (alwaysRedirect "http://a.b/c".toList)
          (getRequest "http://a.b/c").method (collectHeaders (getRequest "http://a.b/c").headers)
          (collectReaders (getRequest "http://a.b/c").body) 5 0
          { url := (getRequest "http://a.b/c").url, redirect := false,
            error_code := NetError.ERR_UNEXPECTED }
          { URLLoaderImpl.new with callback_ := some 3 } = (LoopStatus.running, v', l') ∧
        (startCalls l'.log).length = (startCalls URLLoaderImpl.new.log).length + 5) ∧
    Start false (alwaysRedirect "http://a.b/c".toList) URLLoaderImpl.new
      (getRequest "http://a.b/c") 3 100 = none ∧
    deliveries (loopAfter false (alwaysRedirect "http://a.b/c".toList)
          (getRequest "http://a.b/c").method (collectHeaders (getRequest "http://a.b/c").headers)
          (collectReaders (getRequest "http://a.b/c").body) 5 0
          { url := (getRequest "http://a.b/c").url, redirect := false,
            error_code := NetError.ERR_UNEXPECTED }
          { URLLoaderImpl.new with callback_ := some 3 }).2.2.log
      = deliveries URLLoaderImpl.new.log :=
  ⟨alwaysRedirects_example, quiet_alwaysRedirect _, by decide,
    (C16_redirect_loop_unbounded false (alwaysRedirect "http://a.b/c".toList)
      URLLoaderImpl.new (getRequest "http://a.b/c") 3 ⟨http, "a.b".toList, http, "/c".toList⟩
      false (by decide) (by decide) alwaysRedirects_example).1 5,
    (C16_redirect_loop_unbounded false (alwaysRedirect "http://a.b/c".toList)
      URLLoaderImpl.new (getRequest "http://a.b/c") 3 ⟨http, "a.b".toList, http, "/c".toList⟩
      false (by decide) (by decide) alwaysRedirects_example).2.2.1 100,
    ((C16_redirect_loop_unbounded false (alwaysRedirect "http://a.b/c".toList)
      URLLoaderImpl.new (getRequest "http://a.b/c") 3 ⟨http, "a.b".toList, http, "/c".toList⟩
      false (by decide) (by decide) alwaysRedirects_example).2.2.2
        (quiet_alwaysRedirect _) 5).1⟩

/-- C14, refuted twice. On a loader that has already responded: after a
`FollowRedirect`, a `Start` on the malformed URL `noscheme` returns with its
handle `3` still stored and never run, the only delivery in the log being the
one of the earlier `FollowRedirect` to its handle `1`. On an idle loader: under
a transport that redirects every attempt, `Start` never returns and, however
many iterations are made, nothing is delivered. -/
theorem C14_counterexample :
    FollowRedirect URLLoaderImpl.new 1
      = ⟨none, true, [Event.run 1 (errorResponse NetError.ERR_NOT_IMPLEMENTED)]⟩ ∧
    Start false okTransport (FollowRedirect URLLoaderImpl.new 1) (getRequest "noscheme") 3 1
      = some ⟨some 3, true, [Event.run 1 (errorResponse NetError.ERR_NOT_IMPLEMENTED)]⟩ ∧
    deliveries [Event.run 1 (errorResponse NetError.ERR_NOT_IMPLEMENTED)]
      = [(1, errorResponse NetError.ERR_NOT_IMPLEMENTED)] ∧
    (∀ fuel, Start false (alwaysRedirect "http://a.b/c".toList) URLLoaderImpl.new
      (getRequest "http://a.b/c") 3 fuel = none) ∧
    (∀ n, deliveries (loopAfter false (alwaysRedirect "http://a.b/c".toList)
        (getRequest "http://a.b/c").method
        (collectHeaders (getRequest "http://a.b/c").headers)
        (collectReaders (getRequest "http://a.b/c").body) n 0
        ⟨"http://a.b/c".toList, false, NetError.ERR_UNEXPECTED⟩
        ⟨some 3, false, []⟩).2.2.log = []) :=
  ⟨rfl, rfl, rfl,
    fun fuel => Start_none_of_alwaysRedirects false _ _ _ 3
      ⟨http, "a.b".toList, http, "/c".toList⟩ false (by decide) (by decide)
      alwaysRedirects_example fuel,
    fun n => (quiet_loopAfter false _ (quiet_alwaysRedirect _) _ _ _ n 0 _ _).1⟩

end URLLoader
